import Mathlib

/-!
Shallow embedding of the cortex-browser-env rendering core
(src/cortex-browser-env/src/{dom,css,style,query,element,layout}.rs).

Modelling conventions:
* Rust `String` / `&str` is modelled as `List Char` (`Str`), so that the
  character-by-character scanners translate directly.
* Rust `HashMap<String, String>` is modelled as an association list with
  `mapInsert` replacing an existing binding (the observable semantics of
  `HashMap::insert` / `get` / `remove` / `contains_key`).
* Rust `f32` is modelled as `ℚ`; every arithmetic operation the code
  performs (add, sub, mul, div, max) is translated exactly.
* A Rust operation that can panic (slice indexing `v[i]`) or diverge
  (recursion over a cyclic index graph) is modelled in `Option`, `none`
  standing for the panic / divergence; recursive tree walks take a fuel
  argument, and theorems are stated for every fuel.
* `Node.event_listeners` is carried as an association list to keep the
  record faithful to `dom.rs`; no verified operation reads it.
-/

namespace Cortex

/-- Rust strings, modelled as lists of characters. -/
abbrev Str := List Char

/-- `HashMap::get` on the association-list model: first binding wins
(`mapInsert` keeps keys unique). -/
def mapGet : List (Str × Str) → Str → Option Str
  | [], _ => none
  | (k2, v) :: rest, k => if k2 = k then some v else mapGet rest k

/-- `HashMap::insert`: replace the binding for the key if present,
otherwise append it. -/
def mapInsert : List (Str × Str) → Str → Str → List (Str × Str)
  | [], k, v => [(k, v)]
  | (k2, v2) :: rest, k, v =>
    if k2 = k then (k, v) :: rest else (k2, v2) :: mapInsert rest k v

/-- `HashMap::remove`: drop every binding for the key. -/
def mapRemove (l : List (Str × Str)) (k : Str) : List (Str × Str) :=
  l.filter (fun p => p.1 ≠ k)

/-- `HashMap::contains_key`. -/
def mapContains (l : List (Str × Str)) (k : Str) : Bool :=
  (mapGet l k).isSome

/-- `str::trim`: strip leading and trailing whitespace. -/
def trimList (s : Str) : Str :=
  ((s.dropWhile Char.isWhitespace).reverse.dropWhile Char.isWhitespace).reverse

/-- `str::to_lowercase`, per character. -/
def toLowerList (s : Str) : Str :=
  s.map Char.toLower

/-- Accumulator for `split_whitespace` (`cur` holds the pending word, reversed). -/
def splitWsAux : Str → Str → List Str
  | [], cur => if cur = [] then [] else [cur.reverse]
  | c :: rest, cur =>
    if c.isWhitespace then
      if cur = [] then splitWsAux rest [] else cur.reverse :: splitWsAux rest []
    else splitWsAux rest (c :: cur)

/-- `str::split_whitespace`: the maximal non-whitespace runs, in order. -/
def splitWs (s : Str) : List Str :=
  splitWsAux s []

/-- `dom.rs` `NodeType`. -/
inductive NodeType where
  | Document
  | Element
  | Text
deriving DecidableEq, Repr

/-- `dom.rs` `ElementData`. -/
structure ElementData where
  tag_name : Str
  attributes : List (Str × Str)
deriving DecidableEq, Repr

/-- `dom.rs` `NodeData`. -/
inductive NodeData where
  | Element (data : ElementData)
  | Text (s : Str)
deriving DecidableEq, Repr

/-- `dom.rs` `ShadowRootMode`. -/
inductive ShadowRootMode where
  | Open
  | Closed
deriving DecidableEq, Repr

/-- `dom.rs` `ShadowRoot`. -/
structure ShadowRoot where
  mode : ShadowRootMode
  children : List Nat
deriving DecidableEq, Repr

/-- `dom.rs` `Display`. -/
inductive Display where
  | Block
  | Inline
  | InlineBlock
  | Flex
  | Grid
  | None
deriving DecidableEq, Repr

/-- `dom.rs` `Layout` (f32 fields as ℚ). -/
structure LayoutRec where
  x : ℚ
  y : ℚ
  width : ℚ
  height : ℚ
  content_width : ℚ
  content_height : ℚ
  padding_top : ℚ
  padding_right : ℚ
  padding_bottom : ℚ
  padding_left : ℚ
  margin_top : ℚ
  margin_right : ℚ
  margin_bottom : ℚ
  margin_left : ℚ
  border_width : ℚ
  font_size : ℚ
  display : Display
deriving DecidableEq, Repr

/-- `dom.rs` `Node`. -/
structure Node where
  node_type : NodeType
  parent : Option Nat
  children : List Nat
  data : Option NodeData
  shadow_root : Option ShadowRoot
  event_listeners : List (Str × List Nat)
  layout : Option LayoutRec
deriving DecidableEq, Repr

/-- `dom.rs` `Document`: the arena of nodes plus the root index. -/
structure Document where
  nodes : List Node
  root : Nat
deriving DecidableEq, Repr

/-- `Document::new()`: a single `Document`-variant node at index 0. -/
def Document.new : Document :=
  { nodes := [{ node_type := NodeType.Document, parent := none, children := [],
                data := none, shadow_root := none, event_listeners := [],
                layout := none }],
    root := 0 }

/-- `Document::create_element`: push a fresh `Element` node, return its index. -/
def Document.create_element (d : Document) (tag_name : Str) : Document × Nat :=
  let node : Node :=
    { node_type := NodeType.Element, parent := none, children := [],
      data := some (NodeData.Element { tag_name := tag_name, attributes := [] }),
      shadow_root := none, event_listeners := [], layout := none }
  ({ d with nodes := d.nodes ++ [node] }, d.nodes.length)

/-- `Document::create_text_node`. -/
def Document.create_text_node (d : Document) (text_content : Str) : Document × Nat :=
  let node : Node :=
    { node_type := NodeType.Text, parent := none, children := [],
      data := some (NodeData.Text text_content),
      shadow_root := none, event_listeners := [], layout := none }
  ({ d with nodes := d.nodes ++ [node] }, d.nodes.length)

/-- `Document::append_child`.  The source indexes `self.nodes[parent_idx]`
and then `self.nodes[child_idx]` with the panicking `Index` operator, in
that order; `none` models the panic. -/
def Document.append_child (d : Document) (parent_idx child_idx : Nat) : Option Document :=
  match d.nodes[parent_idx]? with
  | none => none
  | some pn =>
    let d1 : Document :=
      { d with nodes := d.nodes.set parent_idx { pn with children := pn.children ++ [child_idx] } }
    match d1.nodes[child_idx]? with
    | none => none
    | some cn =>
      some { d1 with nodes := d1.nodes.set child_idx { cn with parent := some parent_idx } }

/-- `Document::get_node` (via `Vec::get`, non-panicking). -/
def Document.get_node (d : Document) (idx : Nat) : Option Node :=
  d.nodes[idx]?

/-- `Document::set_attribute`: silent no-op unless the index names an
`Element` node. -/
def Document.set_attribute (d : Document) (element_idx : Nat) (name value : Str) : Document :=
  match d.nodes[element_idx]? with
  | some node =>
    match node.data with
    | some (NodeData.Element element_data) =>
      let ed2 := { element_data with attributes := mapInsert element_data.attributes name value }
      let node2 := { node with data := some (NodeData.Element ed2) }
      { d with nodes := d.nodes.set element_idx node2 }
    | _ => d
  | none => d

/-- `Document::get_attribute`. -/
def Document.get_attribute (d : Document) (element_idx : Nat) (name : Str) : Option Str :=
  match d.nodes[element_idx]? with
  | some node =>
    match node.data with
    | some (NodeData.Element element_data) => mapGet element_data.attributes name
    | _ => none
  | none => none

/-- `element.rs` `ElementRef::remove_attribute`. -/
def remove_attribute (d : Document) (idx : Nat) (name : Str) : Document :=
  match d.nodes[idx]? with
  | some node =>
    match node.data with
    | some (NodeData.Element element) =>
      let ed2 := { element with attributes := mapRemove element.attributes name }
      let node2 := { node with data := some (NodeData.Element ed2) }
      { d with nodes := d.nodes.set idx node2 }
    | _ => d
  | none => d

/-- `element.rs` `ElementRef::has_attribute` (`get_attribute(..).is_some()`). -/
def has_attribute (d : Document) (idx : Nat) (name : Str) : Bool :=
  (d.get_attribute idx name).isSome

/-- `Document::attach_shadow`; the `Err` branches return the document
untouched (the source only mutates in the success case). -/
def Document.attach_shadow (d : Document) (host_idx : Nat) (mode : ShadowRootMode) :
    Document × Except Str Nat :=
  match d.nodes[host_idx]? with
  | some node =>
    if node.node_type = NodeType.Element then
      match node.shadow_root with
      | some _ => (d, Except.error "Shadow root already exists for this host.".toList)
      | none =>
        let node2 := { node with shadow_root := some { mode := mode, children := ([] : List Nat) } }
        ({ d with nodes := d.nodes.set host_idx node2 }, Except.ok host_idx)
    else
      (d, Except.error "Cannot attach shadow root to a non-element node.".toList)
  | none => (d, Except.error "Host node not found.".toList)

/-- `css.rs` `CSSValue` (f32 payloads as ℚ). -/
inductive CSSValue where
  | Pixels (px : ℚ)
  | Percentage (pct : ℚ)
  | Auto
  | Inherit
deriving DecidableEq, Repr

/-- `CSSValue::as_pixels`: the percentage case computes
`reference * (pct / 100.0)`. -/
def CSSValue.as_pixels : CSSValue → ℚ → ℚ
  | CSSValue.Pixels px, _ => px
  | CSSValue.Percentage pct, reference => reference * (pct / 100)
  | CSSValue.Auto, _ => 0
  | CSSValue.Inherit, _ => 0

/-- `css.rs` `ComputedStyle`. -/
structure ComputedStyle where
  width : Option CSSValue
  height : Option CSSValue
  padding_top : Option CSSValue
  padding_right : Option CSSValue
  padding_bottom : Option CSSValue
  padding_left : Option CSSValue
  margin_top : Option CSSValue
  margin_right : Option CSSValue
  margin_bottom : Option CSSValue
  margin_left : Option CSSValue
  border_width : Option CSSValue
  border_color : Option Str
  display : Display
  font_size : Option CSSValue
  color : Option Str
  background_color : Option Str
deriving DecidableEq, Repr

/-- `ComputedStyle::default()`: display Block, font size 16px, all else unset. -/
def ComputedStyle.default : ComputedStyle :=
  { width := none, height := none,
    padding_top := none, padding_right := none, padding_bottom := none, padding_left := none,
    margin_top := none, margin_right := none, margin_bottom := none, margin_left := none,
    border_width := none, border_color := none,
    display := Display.Block, font_size := some (CSSValue.Pixels 16),
    color := none, background_color := none }

/-- `css.rs` `Rule`: raw selector strings plus the declarations map. -/
structure Rule where
  selectors : List Str
  declarations : List (Str × Str)
deriving DecidableEq, Repr

/-- `css.rs` `StyleSheet`. -/
structure StyleSheet where
  rules : List Rule
deriving DecidableEq, Repr

/-- `css.rs` `consume_until`: drop characters strictly before the target. -/
def consume_until (s : Str) (target : Char) : Str :=
  s.dropWhile (fun c => c ≠ target)

/-- `css.rs` `consume_property`: read up to whitespace or a colon, trimmed. -/
def consume_property (s : Str) : Str × Str :=
  (trimList (s.takeWhile (fun c => ¬ c.isWhitespace ∧ c ≠ ':')),
   s.dropWhile (fun c => ¬ c.isWhitespace ∧ c ≠ ':'))

/-- `css.rs` `consume_value`: read up to a semicolon or closing brace, trimmed. -/
def consume_value (s : Str) : Str × Str :=
  (trimList (s.takeWhile (fun c => c ≠ ';' ∧ c ≠ '}')),
   s.dropWhile (fun c => c ≠ ';' ∧ c ≠ '}'))

/-- `css.rs` `consume_selectors`; `cur` is the pending selector text and
`acc` the selectors already cut at commas (a comma pushes the trimmed text
unconditionally, the final flush only if non-empty after trimming). -/
def consume_selectors_go : Str → Str → List Str → List Str × Str
  | [], cur, acc =>
    (if trimList cur = [] then acc else acc ++ [trimList cur], [])
  | c :: rest, cur, acc =>
    if c = '{' then
      (if trimList cur = [] then acc else acc ++ [trimList cur], c :: rest)
    else if c = ',' then
      consume_selectors_go rest [] (acc ++ [trimList cur])
    else
      consume_selectors_go rest (cur ++ [c]) acc

/-- `css.rs` `consume_selectors`. -/
def consume_selectors (s : Str) : List Str × Str :=
  consume_selectors_go s [] []

/-- `css.rs` `consume_declarations`: each iteration reads
`property : value ;` (scanning for the `;` terminator past anything else,
including rule boundaries) and inserts into the map.  Every iteration on a
non-empty suffix consumes at least one character, so `fuel = length + 1`
reproduces the Rust loop exactly. -/
def consume_declarations_go : Nat → Str → List (Str × Str) → List (Str × Str) × Str
  | 0, s, acc => (acc, s)
  | Nat.succ fuel, s, acc =>
    match s with
    | [] => (acc, [])
    | c :: rest =>
      if c.isWhitespace then consume_declarations_go fuel rest acc
      else if c = '}' then (acc, s)
      else
        let pr := consume_property s
        let s2 := (consume_until pr.2 ':').drop 1
        let vr := consume_value s2
        let s3 := (consume_until vr.2 ';').drop 1
        consume_declarations_go fuel s3 (mapInsert acc pr.1 vr.1)

/-- `css.rs` `consume_declarations` at its natural fuel. -/
def consume_declarations (s : Str) : List (Str × Str) × Str :=
  consume_declarations_go (s.length + 1) s []

/-- `css.rs` `parse_css` main loop: skip whitespace, read a selector list
(stop when it is empty), consume `{`, read declarations, consume `}`.
Every productive iteration consumes at least one character, so
`fuel = length + 1` reproduces the Rust loop exactly. -/
def parse_css_go : Nat → Str → List Rule
  | 0, _ => []
  | Nat.succ fuel, s =>
    match s with
    | [] => []
    | c :: rest =>
      if c.isWhitespace then parse_css_go fuel rest
      else
        let sel := consume_selectors s
        if sel.1 = [] then []
        else
          let s2 := (consume_until sel.2 '{').drop 1
          let decl := consume_declarations_go (s2.length + 1) s2 []
          let s3 := (consume_until decl.2 '}').drop 1
          { selectors := sel.1, declarations := decl.1 } :: parse_css_go fuel s3

/-- `css.rs` `parse_css`. -/
def parse_css (css : Str) : StyleSheet :=
  { rules := parse_css_go (css.length + 1) css }

/-- Strict lexicographic order on strings (the order `sort_by_key` uses,
byte order and codepoint order agreeing on UTF-8). -/
def strLt : Str → Str → Bool
  | [], [] => false
  | [], _ :: _ => true
  | _ :: _, [] => false
  | a :: as, b :: bs => if a < b then true else if b < a then false else strLt as bs

/-- Stable insertion into a key-sorted list: the new element goes after
every element with a strictly smaller key and before the rest, which for
elements inserted left to right reproduces `sort_by_key` (a stable sort). -/
def insertByKey {α : Type} (key : α → Str) (x : α) : List α → List α
  | [] => [x]
  | y :: ys => if strLt (key y) (key x) then y :: insertByKey key x ys else x :: y :: ys

/-- Stable sort by key, modelling `Vec::sort_by_key`. -/
def sortByKey {α : Type} (key : α → Str) : List α → List α
  | [] => []
  | x :: xs => insertByKey key x (sortByKey key xs)

/-- `Vec::join(",")` on the selector strings (the `sort_by_key` key). -/
def joinComma : List Str → Str
  | [] => []
  | [s] => s
  | s :: rest => s ++ ',' :: joinComma rest

/-- `style.rs` `matches` (renamed: `matches` is a Lean keyword): the cascade's private matcher.  Tag names are
compared by exact equality; a class token `c` matches when `".{c}"` equals
the selector; the id attribute when `"#{id}"` equals the selector. -/
def styleMatches (node : Node) (selector : Str) : Bool :=
  match node.data with
  | some (NodeData.Element element_data) =>
    (element_data.tag_name = selector) ||
    (match mapGet element_data.attributes "class".toList with
     | some class_attr => (splitWs class_attr).any (fun c => '.' :: c = selector)
     | none => false) ||
    (match mapGet element_data.attributes "id".toList with
     | some id_attr => ('#' :: id_attr = selector)
     | none => false)
  | _ => false

/-- `style.rs` `specified_values`: collect the rules with at least one
matching selector string (source order), stably sort them by the joined
selector list, then fold the declarations over the default style, mapping
only the `color` property. -/
def specified_values (node : Node) (stylesheet : StyleSheet) : ComputedStyle :=
  let matched_rules :=
    stylesheet.rules.filter (fun rule => rule.selectors.any (fun sel => styleMatches node sel))
  let sorted := sortByKey (fun r => joinComma r.selectors) matched_rules
  sorted.foldl
    (fun style rule =>
      rule.declarations.foldl
        (fun st pv =>
          if pv.1 = "color".toList then { st with color := some pv.2 } else st)
        style)
    ComputedStyle.default

/-- `query.rs` `Selector`. -/
inductive Selector where
  | Element (tag : Str)
  | Id (id : Str)
  | Class (cls : Str)
  | Attribute (attr : Str) (value : Str)
  | AttributeExists (attr : Str)
  | Descendant (anc : Selector) (desc : Selector)
  | Child (par : Selector) (chd : Selector)
deriving DecidableEq, Repr

/-- The quote-stripping step of `parse_selector`.  Rust slices
`value_part[1..len-1]` after checking `starts_with`/`ends_with`, which
panics (modelled `none`) when the trimmed value is the one-character
string `"` or `'`. -/
def stripQuotes (value_part : Str) : Option Str :=
  if value_part.head? = some '"' ∧ value_part.getLast? = some '"' then
    if value_part.length < 2 then none else some ((value_part.drop 1).dropLast)
  else if value_part.head? = some '\'' ∧ value_part.getLast? = some '\'' then
    if value_part.length < 2 then none else some ((value_part.drop 1).dropLast)
  else some value_part

/-- `query.rs` `parse_selector`: trim, then id / class / attribute /
element in that order; fails only on an empty trimmed string.  The outer
`Option` models the panic inside the attribute-value case. -/
def parse_selector (s : Str) : Option (Except Str Selector) :=
  let s := trimList s
  if s = [] then some (Except.error "Empty selector".toList)
  else if s.head? = some '#' then some (Except.ok (Selector.Id (s.drop 1)))
  else if s.head? = some '.' then some (Except.ok (Selector.Class (s.drop 1)))
  else if s.head? = some '[' ∧ s.getLast? = some ']' then
    let content := (s.drop 1).dropLast
    match content.findIdx? (fun c => c = '=') with
    | some eq_pos =>
      let attr := trimList (content.take eq_pos)
      let value_part := trimList (content.drop (eq_pos + 1))
      match stripQuotes value_part with
      | some value => some (Except.ok (Selector.Attribute attr value))
      | none => none
    | none => some (Except.ok (Selector.AttributeExists content))
  else some (Except.ok (Selector.Element s))

/-- `query.rs` `matches_selector`: only `Element` nodes match; tag
comparison is case-insensitive, id / class / attribute comparisons exact;
combinator selectors never match. -/
def matches_selector (document : Document) (node_idx : Nat) (selector : Selector) : Bool :=
  match document.nodes[node_idx]? with
  | none => false
  | some node =>
    if node.node_type ≠ NodeType.Element then false
    else
      match node.data with
      | some (NodeData.Element element_data) =>
        match selector with
        | Selector.Element tag => toLowerList element_data.tag_name = toLowerList tag
        | Selector.Id id =>
          (match mapGet element_data.attributes "id".toList with
           | some v => v = id
           | none => false)
        | Selector.Class cls =>
          (match mapGet element_data.attributes "class".toList with
           | some classes => (splitWs classes).any (fun c => c = cls)
           | none => false)
        | Selector.Attribute attr value =>
          (match mapGet element_data.attributes attr with
           | some v => v = value
           | none => false)
        | Selector.AttributeExists attr => mapContains element_data.attributes attr
        | Selector.Descendant _ _ => false
        | Selector.Child _ _ => false
      | _ => false

mutual

/-- `query.rs` `search_recursive`: push the node if it matches, then
recurse over its children; a missing node contributes nothing.  Fuel
decreases on every recursive step (`none` models divergence on a cyclic
arena; any sufficiently large fuel reproduces the Rust run); the returned
list is this subtree's contribution in traversal order. -/
def search_recursive : Nat → Document → Nat → Selector → Option (List Nat)
  | 0, _, _, _ => none
  | Nat.succ fuel, document, node_idx, selector =>
    match document.nodes[node_idx]? with
    | none => some []
    | some node =>
      match search_children fuel document node.children selector with
      | some rest =>
        some ((if matches_selector document node_idx selector then [node_idx] else []) ++ rest)
      | none => none

/-- The `for child_idx in &node.children` loop of `search_recursive`. -/
def search_children : Nat → Document → List Nat → Selector → Option (List Nat)
  | _, _, [], _ => some []
  | 0, _, _ :: _, _ => none
  | Nat.succ fuel, document, c :: cs, selector =>
    match search_recursive fuel document c selector with
    | some r1 =>
      match search_children fuel document cs selector with
      | some r2 => some (r1 ++ r2)
      | none => none
    | none => none

end

/-- `query.rs` `query_selector_all`: parse once, then search from every
child of node 0 (the root node itself is never tested). -/
def query_selector_all (fuel : Nat) (document : Document) (selector : Str) :
    Option (Except Str (List Nat)) :=
  match parse_selector selector with
  | none => none
  | some (Except.error e) => some (Except.error e)
  | some (Except.ok parsed) =>
    match document.nodes[0]? with
    | none => some (Except.ok [])
    | some root_node =>
      match search_children fuel document root_node.children parsed with
      | some results => some (Except.ok results)
      | none => none

/-- `query.rs` `query_selector`: the first index of `query_selector_all`. -/
def query_selector (fuel : Nat) (document : Document) (selector : Str) :
    Option (Except Str (Option Nat)) :=
  (query_selector_all fuel document selector).map (Except.map (fun results => results.head?))

mutual

/-- Modelled from the spec (§4.4): the pre-order depth-first visit order of
the subtree rooted at a node — the node itself, then each child's subtree
in child order; a missing node contributes nothing.  This is the
specification-side description of the traversal, used to state that
`query_selector_all` returns exactly the matching indices in this order. -/
def preorderSpec : Nat → Document → Nat → Option (List Nat)
  | 0, _, _ => none
  | Nat.succ fuel, document, node_idx =>
    match document.nodes[node_idx]? with
    | none => some []
    | some node =>
      match preorderSpecList fuel document node.children with
      | some rest => some (node_idx :: rest)
      | none => none

/-- Pre-order visit order of a forest of subtrees, in order. -/
def preorderSpecList : Nat → Document → List Nat → Option (List Nat)
  | _, _, [] => some []
  | 0, _, _ :: _ => none
  | Nat.succ fuel, document, c :: cs =>
    match preorderSpec fuel document c with
    | some r1 =>
      match preorderSpecList fuel document cs with
      | some r2 => some (r1 ++ r2)
      | none => none
    | none => none

end

/-- The spec-side pre-order visit order of `query_selector_all`: every
child of node 0 in child order, depth first, the root itself excluded. -/
def preorderChildren (fuel : Nat) (document : Document) : Option (List Nat) :=
  match document.nodes[0]? with
  | none => some []
  | some root_node => preorderSpecList fuel document root_node.children

/-- `layout.rs` `calculate_dimensions`: explicit width/height resolved
against the parent content box; defaults `max(parent_width, 100)` for
Block, `100` otherwise; default height `font_size * 1.5` for Text nodes,
`100` otherwise. -/
def calculate_dimensions (style : ComputedStyle) (parent_width parent_height : ℚ)
    (node : Node) : ℚ × ℚ :=
  let width :=
    match style.width with
    | some v => v.as_pixels parent_width
    | none =>
      match style.display with
      | Display.Block => max parent_width 100
      | Display.Inline => 100
      | Display.InlineBlock => 100
      | _ => 100
  let height :=
    match style.height with
    | some v => v.as_pixels parent_height
    | none =>
      match node.node_type with
      | NodeType.Text => ((style.font_size.map (fun v => v.as_pixels 16)).getD 16) * (3 / 2)
      | _ => 100
  (width, height)

/-- The `Layout` record `calculate_layout_recursive` writes for one node:
box-model values defaulted to 0, content box clamped at 0, position given
by the margins. -/
def computeLayout (style : ComputedStyle) (node : Node) (parent_width parent_height : ℚ) :
    LayoutRec :=
  let wh := calculate_dimensions style parent_width parent_height node
  let padding_top := (style.padding_top.map (fun v => v.as_pixels parent_width)).getD 0
  let padding_right := (style.padding_right.map (fun v => v.as_pixels parent_width)).getD 0
  let padding_bottom := (style.padding_bottom.map (fun v => v.as_pixels parent_width)).getD 0
  let padding_left := (style.padding_left.map (fun v => v.as_pixels parent_width)).getD 0
  let margin_top := (style.margin_top.map (fun v => v.as_pixels parent_width)).getD 0
  let margin_right := (style.margin_right.map (fun v => v.as_pixels parent_width)).getD 0
  let margin_bottom := (style.margin_bottom.map (fun v => v.as_pixels parent_width)).getD 0
  let margin_left := (style.margin_left.map (fun v => v.as_pixels parent_width)).getD 0
  let border_width := (style.border_width.map (fun v => v.as_pixels parent_width)).getD 0
  let content_width := max (wh.1 - padding_left - padding_right - 2 * border_width) 0
  let content_height := max (wh.2 - padding_top - padding_bottom - 2 * border_width) 0
  let font_size := (style.font_size.map (fun v => v.as_pixels 16)).getD 16
  { x := margin_left, y := margin_top, width := wh.1, height := wh.2,
    content_width := content_width, content_height := content_height,
    padding_top := padding_top, padding_right := padding_right,
    padding_bottom := padding_bottom, padding_left := padding_left,
    margin_top := margin_top, margin_right := margin_right,
    margin_bottom := margin_bottom, margin_left := margin_left,
    border_width := border_width, font_size := font_size,
    display := style.display }

mutual

/-- `layout.rs` `calculate_layout_recursive`: read the node and its style
(both through panicking slice indexing — `none` models the panic), write
the node's `Layout`, then recurse over the children against the new
content box, through the flex pass when the display is Flex.  Fuel bounds
the recursion depth. -/
def calculate_layout_recursive :
    Nat → Document → Nat → List ComputedStyle → ℚ → ℚ → Option Document
  | 0, _, _, _, _, _ => none
  | Nat.succ fuel, document, node_idx, styles, parent_width, parent_height =>
    match document.nodes[node_idx]?, styles[node_idx]? with
    | some node, some style =>
      let layout := computeLayout style node parent_width parent_height
      let doc1 : Document :=
        { document with nodes := document.nodes.set node_idx { node with layout := some layout } }
      if style.display = Display.Flex then
        match layout_flex_children fuel doc1 node.children styles
            layout.content_width layout.content_height 0 with
        | some pr => some pr.1
        | none => none
      else
        layout_children fuel doc1 node.children styles
          layout.content_width layout.content_height
    | _, _ => none

/-- The non-flex `for child_idx in children` loop of
`calculate_layout_recursive`. -/
def layout_children :
    Nat → Document → List Nat → List ComputedStyle → ℚ → ℚ → Option Document
  | _, doc, [], _, _, _ => some doc
  | 0, _, _ :: _, _, _, _ => none
  | Nat.succ fuel, doc, c :: cs, styles, pw, ph =>
    match calculate_layout_recursive fuel doc c styles pw ph with
    | some d => layout_children fuel d cs styles pw ph
    | none => none

/-- `layout.rs` `layout_flex_children`: lay out each child normally, then
overwrite its x-position with the running sum of the preceding widths
(the accumulator `curx`).  The child is re-read through panicking slice
indexing after its layout; a child that somehow has no layout is skipped
(`as_mut` on `None`). -/
def layout_flex_children :
    Nat → Document → List Nat → List ComputedStyle → ℚ → ℚ → ℚ → Option (Document × ℚ)
  | _, doc, [], _, _, _, curx => some (doc, curx)
  | 0, _, _ :: _, _, _, _, _ => none
  | Nat.succ fuel, doc, c :: cs, styles, pw, ph, curx =>
    match calculate_layout_recursive fuel doc c styles pw ph with
    | some d =>
      match d.nodes[c]? with
      | none => none
      | some cn =>
        match cn.layout with
        | some l =>
          let d2 : Document :=
            { d with nodes := d.nodes.set c { cn with layout := some { l with x := curx } } }
          layout_flex_children fuel d2 cs styles pw ph (curx + l.width)
        | none => layout_flex_children fuel d cs styles pw ph curx
    | none => none

end

/-- `layout.rs` `calculate_layout`: early return on an empty arena, else
seed one default `ComputedStyle` per node and recurse from the root
against the viewport. -/
def calculate_layout (fuel : Nat) (document : Document)
    (viewport_width viewport_height : ℚ) : Option Document :=
  if document.nodes.length = 0 then some document
  else
    calculate_layout_recursive fuel document document.root
      (List.replicate document.nodes.length ComputedStyle.default)
      viewport_width viewport_height

mutual

/-- Over-approximation of the node indices `calculate_layout_recursive`
can write to: the node itself and, recursively, everything below its
children, depth-bounded by the same fuel.  It reads only the `children`
fields, so it is stable under layout- and data-only changes. -/
def touch : Nat → Document → Nat → List Nat
  | 0, _, _ => []
  | Nat.succ fuel, document, idx =>
    match document.nodes[idx]? with
    | none => [idx]
    | some node => idx :: touchList fuel document node.children

/-- `touch` over a list of roots. -/
def touchList : Nat → Document → List Nat → List Nat
  | _, _, [] => []
  | 0, _, _ :: _ => []
  | Nat.succ fuel, document, c :: cs => touch fuel document c ++ touchList fuel document cs

end

/-- The layout stored at index `j` (missing node or missing layout both
give `none`). -/
def layAt (d : Document) (j : Nat) : Option LayoutRec :=
  (d.nodes[j]?).bind Node.layout

/-- A node with its layout annotation erased. -/
def stripLayout (n : Node) : Node :=
  { n with layout := none }

/-- A node with its data payload (tag name, attributes, text) erased. -/
def stripData (n : Node) : Node :=
  { n with data := none }

/-- The part of a node the layout pass reads: node type and children. -/
def NodeShape (n : Node) : NodeType × List Nat :=
  (n.node_type, n.children)

/-- Two arenas with the same skeleton (node types and child lists agree at
every index; same length). -/
def SkelEq (d1 d2 : Document) : Prop :=
  d1.nodes.length = d2.nodes.length ∧
  ∀ j : Nat, (d1.nodes[j]?).map NodeShape = (d2.nodes[j]?).map NodeShape

/-- `d'` is `d` with at most the per-node layout annotations changed. -/
def LayPres (d d' : Document) : Prop :=
  d'.root = d.root ∧ d'.nodes.length = d.nodes.length ∧
  ∀ j : Nat, (d'.nodes[j]?).map stripLayout = (d.nodes[j]?).map stripLayout

/-- The `children` field of the node stored at `i` (empty for a missing node). -/
def childrenAt (d : Document) (i : Nat) : List Nat :=
  ((d.nodes[i]?).map Node.children).getD []

/-- The `parent` field of the node stored at `i`. -/
def parentAt (d : Document) (i : Nat) : Option Nat :=
  ((d.nodes[i]?).map Node.parent).getD none

/-- A two-node document: the root with one `<h1>` element child at
index 1 (built by `create_element` then `append_child`). -/
def docH1 : Document :=
  (((Document.new.create_element ("h1".toList)).1).append_child 0 1).getD
    (Document.new.create_element ("h1".toList)).1

/-- The `<h1>` element node of `docH1`. -/
def h1node : Node :=
  { node_type := NodeType.Element, parent := some 0, children := [],
    data := some (NodeData.Element { tag_name := "h1".toList, attributes := [] }),
    shadow_root := none, event_listeners := [], layout := none }

/-- A two-node document: the root plus one `<a>` element at index 1. -/
def docA : Document :=
  (Document.new.create_element ("a".toList)).1

/-- The `<a>` element node of `docA`. -/
def aNode : Node :=
  { node_type := NodeType.Element, parent := none, children := [],
    data := some (NodeData.Element { tag_name := "a".toList, attributes := [] }),
    shadow_root := none, event_listeners := [], layout := none }

/-! ### Association-list (HashMap) lemmas -/

theorem mapGet_mapInsert_self (l : List (Str × Str)) (k v : Str) :
    mapGet (mapInsert l k v) k = some v := by
  induction l with
  | nil => simp [mapInsert, mapGet]
  | cons p rest ih =>
    by_cases h : p.1 = k
    · simp [mapInsert, h, mapGet]
    · simp [mapInsert, h, mapGet, ih]

theorem mapGet_mapRemove_self (l : List (Str × Str)) (k : Str) :
    mapGet (mapRemove l k) k = none := by
  induction l with
  | nil => simp [mapRemove, mapGet]
  | cons p rest ih =>
    by_cases h : p.1 = k
    · simpa [mapRemove, h] using ih
    · simpa [mapRemove, h, mapGet] using ih

/-! ### Claim theorems: C8, C9, C2, C4, C1, C3 -/

/-- Claim C8: `as_pixels` resolves `Pixels p` to `p`, `Percentage n`
against a reference length `W` to `W * n / 100`, and both `Auto` and
`Inherit` to `0`. -/
theorem C8_as_pixels_spec (W p n : ℚ) :
    CSSValue.as_pixels (CSSValue.Pixels p) W = p ∧
    CSSValue.as_pixels (CSSValue.Percentage n) W = W * n / 100 ∧
    CSSValue.as_pixels CSSValue.Auto W = 0 ∧
    CSSValue.as_pixels CSSValue.Inherit W = 0 := by
  refine ⟨rfl, ?_, rfl, rfl⟩
  show W * (n / 100) = W * n / 100
  rw [mul_div_assoc]

/-- Claim C9: `attach_shadow` fails with a distinguishable message in
exactly three cases — host missing, host not an Element, shadow root
already present — leaving the document unchanged, and otherwise attaches
an empty shadow root of the requested mode. -/
theorem C9_attach_shadow_spec (d : Document) (h : Nat) (mode : ShadowRootMode) :
    (d.nodes[h]? = none →
      d.attach_shadow h mode = (d, Except.error ("Host node not found.".toList))) ∧
    (∀ n, d.nodes[h]? = some n → n.node_type ≠ NodeType.Element →
      d.attach_shadow h mode =
        (d, Except.error ("Cannot attach shadow root to a non-element node.".toList))) ∧
    (∀ n sr, d.nodes[h]? = some n → n.node_type = NodeType.Element →
      n.shadow_root = some sr →
      d.attach_shadow h mode =
        (d, Except.error ("Shadow root already exists for this host.".toList))) ∧
    (∀ n, d.nodes[h]? = some n → n.node_type = NodeType.Element →
      n.shadow_root = none →
      d.attach_shadow h mode =
        ({ d with nodes := d.nodes.set h { n with shadow_root := some { mode := mode, children := [] } } }, Except.ok h)) ∧
    ("Host node not found.".toList ≠
       "Cannot attach shadow root to a non-element node.".toList ∧
     "Host node not found.".toList ≠
       "Shadow root already exists for this host.".toList ∧
     "Cannot attach shadow root to a non-element node.".toList ≠
       "Shadow root already exists for this host.".toList) := by
  refine ⟨?_, ?_, ?_, ?_, by decide, by decide, by decide⟩
  · intro hnone
    simp [Document.attach_shadow, hnone]
  · intro n hn hne
    simp [Document.attach_shadow, hn, hne]
  · intro n sr hn hel hsr
    simp [Document.attach_shadow, hn, hel, hsr]
  · intro n hn hel hsr
    simp [Document.attach_shadow, hn, hel, hsr]

/-- Witness for C9: on `docA`, attaching to the element at index 1
succeeds and attaching to the root (a non-Element) fails with the
non-element message. -/
theorem C9_attach_shadow_witness :
    docA.attach_shadow 1 ShadowRootMode.Open =
      ({ docA with nodes := docA.nodes.set 1 { aNode with shadow_root := some { mode := ShadowRootMode.Open, children := [] } } }, Except.ok 1) ∧
    (Document.new.attach_shadow 0 ShadowRootMode.Open).2 =
      Except.error ("Cannot attach shadow root to a non-element node.".toList) := by
  constructor
  · exact (C9_attach_shadow_spec docA 1 ShadowRootMode.Open).2.2.2.1 aNode (by decide)
      (by decide) (by decide)
  · have := (C9_attach_shadow_spec Document.new 0 ShadowRootMode.Open).2.1
      { node_type := NodeType.Document, parent := none, children := [], data := none,
        shadow_root := none, event_listeners := [], layout := none }
      (by decide) (by decide)
    rw [this]

/-- Claim C2 counterexample: on the fresh one-node document, appending
with the out-of-range parent index 1 panics (Rust's `self.nodes[1]`;
modelled `none`) instead of being a no-op returning the document
unchanged. -/
theorem C2_counterexample : Document.new.append_child 1 0 = none := by
  decide

/-- Claim C2 (amended): for in-range indices `append_child` fully
succeeds — it appends the child index to the parent's child sequence,
sets the child's parent, and changes nothing else — but for an
out-of-range parent or child index it panics (`none`) rather than
performing a no-op. -/
theorem C2_append_child_amended (d : Document) (p c : Nat) :
    (p < d.nodes.length → c < d.nodes.length →
      ∃ d', d.append_child p c = some d' ∧
        d'.nodes.length = d.nodes.length ∧
        d'.root = d.root ∧
        childrenAt d' p = childrenAt d p ++ [c] ∧
        parentAt d' c = some p ∧
        ∀ j, j ≠ p → j ≠ c → d'.nodes[j]? = d.nodes[j]?) ∧
    ((d.nodes.length ≤ p ∨ d.nodes.length ≤ c) → d.append_child p c = none) := by
  constructor
  · intro hp hc
    obtain ⟨pn, hpn⟩ : ∃ pn, d.nodes[p]? = some pn := ⟨_, List.getElem?_eq_getElem hp⟩
    have hc1 : c < (d.nodes.set p { pn with children := pn.children ++ [c] }).length := by
      simpa using hc
    obtain ⟨cn, hcn⟩ :
        ∃ cn, (d.nodes.set p { pn with children := pn.children ++ [c] })[c]? = some cn :=
      ⟨_, List.getElem?_eq_getElem hc1⟩
    refine ⟨{ d with nodes := (d.nodes.set p { pn with children := pn.children ++ [c] }).set c { cn with parent := some p } }, ?_, by simp, rfl, ?_, ?_, ?_⟩
    · simp only [Document.append_child, hpn]
      rw [hcn]
    · by_cases hpc : p = c
      · subst hpc
        have hmidp : (d.nodes.set p { pn with children := pn.children ++ [p] })[p]? =
            some { pn with children := pn.children ++ [p] } :=
          List.getElem?_set_eq_of_lt _ hp
        have hcnv : cn = { pn with children := pn.children ++ [p] } :=
          Option.some.inj (hcn.symm.trans hmidp)
        have hfin : ((d.nodes.set p { pn with children := pn.children ++ [p] }).set p { cn with parent := some p })[p]? = some { cn with parent := some p } :=
          List.getElem?_set_eq_of_lt _ hc1
        simp [childrenAt, hfin, hcnv, hpn]
        rw [List.getElem?_set_eq_of_lt _ hp]
        rfl
      · have hfin : ((d.nodes.set p { pn with children := pn.children ++ [c] }).set c { cn with parent := some p })[p]? = some { pn with children := pn.children ++ [c] } := by
          rw [List.getElem?_set_ne (fun he => hpc he.symm)]
          exact List.getElem?_set_eq_of_lt _ hp
        simp [childrenAt, hfin, hpn]
    · have hfin : ((d.nodes.set p { pn with children := pn.children ++ [c] }).set c { cn with parent := some p })[c]? = some { cn with parent := some p } :=
        List.getElem?_set_eq_of_lt _ hc1
      simp [parentAt, hfin]
    · intro j hjp hjc
      rw [List.getElem?_set_ne (fun he => hjc he.symm),
        List.getElem?_set_ne (fun he => hjp he.symm)]
  · intro hout
    rcases hout with hout | hout
    · have : d.nodes[p]? = none := List.getElem?_eq_none hout
      simp [Document.append_child, this]
    · by_cases hp : p < d.nodes.length
      · have hpn : d.nodes[p]? = some d.nodes[p] := List.getElem?_eq_getElem hp
        have : (d.nodes.set p { d.nodes[p] with
            children := (d.nodes[p]).children ++ [c] })[c]? = none := by
          apply List.getElem?_eq_none
          simpa using hout
        simp [Document.append_child, hpn, this]
      · have : d.nodes[p]? = none := List.getElem?_eq_none (Nat.le_of_not_lt hp)
        simp [Document.append_child, this]

/-- Witness for C2: on the two-node document, appending node 1 under node
0 succeeds with exactly the described update, and appending under the
out-of-range index 5 panics. -/
theorem C2_append_child_witness :
    (∃ d', docA.append_child 0 1 = some d' ∧
      d'.nodes.length = docA.nodes.length ∧
      d'.root = docA.root ∧
      childrenAt d' 0 = childrenAt docA 0 ++ [1] ∧
      parentAt d' 1 = some 0 ∧
      ∀ j, j ≠ 0 → j ≠ 1 → d'.nodes[j]? = docA.nodes[j]?) ∧
    docA.append_child 5 0 = none :=
  ⟨(C2_append_child_amended docA 0 1).1 (by decide) (by decide),
   (C2_append_child_amended docA 5 0).2 (Or.inl (by decide))⟩

/-- Claim C4 counterexample: index 0 (the root `Document` node) is
in-range, yet `get_attribute` after `set_attribute` returns `none`, not
the stored value — the round-trip as claimed for every valid index fails
on non-`Element` nodes. -/
theorem C4_counterexample :
    0 < Document.new.nodes.length ∧
    (Document.new.set_attribute 0 ("k".toList) ("v".toList)).get_attribute 0 ("k".toList)
      = none := by
  exact ⟨by decide, by decide⟩

/-- Claim C4 (amended): the set-then-get round-trip holds for every
in-range index that names an `Element` node (on other indices
`set_attribute` is a silent no-op and `get_attribute` returns `none`);
`remove_attribute` followed by `has_attribute` is `false` for every index
and name. -/
theorem C4_attr_amended (d : Document) (i : Nat) (k v k2 : Str) :
    (∀ node ed, d.nodes[i]? = some node → node.data = some (NodeData.Element ed) →
      (d.set_attribute i k v).get_attribute i k = some v) ∧
    has_attribute (remove_attribute d i k2) i k2 = false := by
  constructor
  · intro node ed hnode hdata
    have hi : i < d.nodes.length := (List.getElem?_eq_some.mp hnode).1
    have hset : d.set_attribute i k v = { d with nodes := d.nodes.set i { node with data := some (NodeData.Element { ed with attributes := mapInsert ed.attributes k v }) } } := by
      simp [Document.set_attribute, hnode, hdata]
    rw [hset]
    simp [Document.get_attribute, List.getElem?_set_eq_of_lt _ hi, mapGet_mapInsert_self]
  · rcases hn : d.nodes[i]? with _ | node
    · simp [remove_attribute, has_attribute, Document.get_attribute, hn]
    · rcases hd : node.data with _ | nd
      · simp [remove_attribute, has_attribute, Document.get_attribute, hn, hd]
      · rcases nd with ed | txt
        · have hi : i < d.nodes.length := (List.getElem?_eq_some.mp hn).1
          simp [remove_attribute, has_attribute, Document.get_attribute, hn, hd,
            List.getElem?_set_eq_of_lt _ hi, mapGet_mapRemove_self]
        · simp [remove_attribute, has_attribute, Document.get_attribute, hn, hd]

/-- Witness for C4: the round-trip and remove-then-has on the element at
index 1 of the two-node document. -/
theorem C4_attr_witness :
    (docA.set_attribute 1 ("k".toList) ("v".toList)).get_attribute 1 ("k".toList)
      = some ("v".toList) ∧
    has_attribute (remove_attribute docA 1 ("k".toList)) 1 ("k".toList) = false :=
  ⟨(C4_attr_amended docA 1 ("k".toList) ("v".toList) ("k".toList)).1 aNode
      { tag_name := "a".toList, attributes := [] } (by decide) rfl,
   (C4_attr_amended docA 1 ("k".toList) ("v".toList) ("k".toList)).2⟩

/-- Claim C1 counterexample: on the stylesheet text
`h1{color:blue} h1{color:red}` the resolved color of an `<h1>` is
`blue`, not `red` — the declaration scanner hunts for a `;` terminator
after `blue`, consumes the rest of the input, and the second rule is
never parsed. -/
theorem C1_counterexample :
    (specified_values h1node (parse_css ("h1{color:blue} h1{color:red}".toList))).color
      = some ("blue".toList) ∧
    (specified_values h1node (parse_css ("h1{color:blue} h1{color:red}".toList))).color
      ≠ some ("red".toList) := by
  exact ⟨by decide, by decide⟩

/-- Claim C1 (amended): the semicolon-free stylesheet resolves to `blue`
because only its first rule is parsed; with explicit terminators —
`h1{color:blue;} h1{color:red;}` — both rules parse, both match, and the
last rule in the cascade's sort order wins, resolving to `red`. -/
theorem C1_last_rule_wins :
    (specified_values h1node (parse_css ("h1{color:blue} h1{color:red}".toList))).color
      = some ("blue".toList) ∧
    (specified_values h1node (parse_css ("h1{color:blue;} h1{color:red;}".toList))).color
      = some ("red".toList) := by
  exact ⟨by decide, by decide⟩

/-- Claim C3 counterexample: on the selector string `H1` and an `<h1>`
element, the selector engine matches (case-insensitive tag comparison)
but the cascade's private matcher does not (exact comparison) — the two
matchers disagree. -/
theorem C3_counterexample :
    docH1.nodes[1]? = some h1node ∧
    parse_selector ("H1".toList) = some (Except.ok (Selector.Element ("H1".toList))) ∧
    matches_selector docH1 1 (Selector.Element ("H1".toList)) = true ∧
    styleMatches h1node ("H1".toList) = false := by
  refine ⟨by decide, rfl, by decide, by decide⟩

/-- Claim C3 (amended): the two matchers do not agree in general; what
holds is one inclusion — on a selector string that is trimmed, non-empty
and not of id/class/attribute form, a cascade match of an `Element` node
implies a selector-engine match (the string parses as an element-name
selector and the engine's case-insensitive comparison subsumes the
cascade's exact one).  The converse fails (`C3_counterexample`). -/
theorem C3_cascade_subsumed (d : Document) (idx : Nat) (node : Node) (sel : Str)
    (hnode : d.nodes[idx]? = some node)
    (htype : node.node_type = NodeType.Element)
    (htrim : trimList sel = sel)
    (hne : sel ≠ [])
    (hhash : sel.head? ≠ some '#')
    (hdot : sel.head? ≠ some '.')
    (hbr : sel.head? ≠ some '[')
    (hmatch : styleMatches node sel = true) :
    parse_selector sel = some (Except.ok (Selector.Element sel)) ∧
    matches_selector d idx (Selector.Element sel) = true := by
  constructor
  · rw [parse_selector]
    rw [htrim]
    simp [hne, hhash, hdot, hbr]
  · rcases hd : node.data with _ | nd
    · simp [styleMatches, hd] at hmatch
    · rcases nd with ed | txt
      · simp only [styleMatches, hd] at hmatch
        rcases hcl : mapGet ed.attributes ("class".toList) with _ | cls
        all_goals rcases hid : mapGet ed.attributes ("id".toList) with _ | idv
        all_goals rw [hcl, hid] at hmatch
        all_goals simp only [Bool.or_eq_true, decide_eq_true_eq, List.any_eq_true,
          Bool.false_eq_true, or_false, false_or] at hmatch
        all_goals simp only [matches_selector, hnode, htype, hd]
        all_goals simp only [ne_eq, not_true_eq_false, if_false, decide_eq_true_eq]
        · rw [hmatch]
        · rcases hmatch with htag | hidm
          · rw [htag]
          · exact absurd (by rw [← hidm]; rfl) hhash
        · rcases hmatch with htag | ⟨c, _, hcm⟩
          · rw [htag]
          · exact absurd (by rw [← hcm]; rfl) hdot
        · rcases hmatch with (htag | ⟨c, _, hcm⟩) | hidm
          · rw [htag]
          · exact absurd (by rw [← hcm]; rfl) hdot
          · exact absurd (by rw [← hidm]; rfl) hhash
      · simp [styleMatches, hd] at hmatch

/-- Witness for C3 (amended): the inclusion applied to the `<h1>` element
and the selector string `h1`. -/
theorem C3_cascade_subsumed_witness :
    parse_selector ("h1".toList) = some (Except.ok (Selector.Element ("h1".toList))) ∧
    matches_selector docH1 1 (Selector.Element ("h1".toList)) = true :=
  C3_cascade_subsumed docH1 1 h1node ("h1".toList) (by decide) rfl (by decide)
    (by decide) (by decide) (by decide) (by decide) (by decide)

/-! ### C7: querySelectorAll is the pre-order filter -/

theorem search_eq_filter (fuel : Nat) (doc : Document) (q : Selector) :
    (∀ idx, search_recursive fuel doc idx q =
      (preorderSpec fuel doc idx).map (List.filter (fun i => matches_selector doc i q))) ∧
    (∀ cs, search_children fuel doc cs q =
      (preorderSpecList fuel doc cs).map (List.filter (fun i => matches_selector doc i q))) := by
  induction fuel with
  | zero =>
    constructor
    · intro idx; simp [search_recursive, preorderSpec]
    · intro cs
      cases cs with
      | nil => simp [search_children, preorderSpecList]
      | cons c cs => simp [search_children, preorderSpecList]
  | succ fuel ih =>
    constructor
    · intro idx
      rw [search_recursive, preorderSpec]
      rcases doc.nodes[idx]? with _ | node
      · rfl
      · simp only [ih.2]
        rcases preorderSpecList fuel doc node.children with _ | rest
        · rfl
        · by_cases hm : matches_selector doc idx q
          · simp [hm, List.filter_cons]
          · simp [hm, List.filter_cons]
    · intro cs
      cases cs with
      | nil => simp [search_children, preorderSpecList]
      | cons c cs =>
        rw [search_children, preorderSpecList]
        simp only [ih.1, ih.2]
        rcases preorderSpec fuel doc c with _ | r1
        · rfl
        · rcases preorderSpecList fuel doc cs with _ | r2
          · rfl
          · simp

/-- Claim C7: for a selector text whose parse succeeds,
`query_selector_all` (a) never returns an error, (b) returns exactly the
matching indices of the pre-order depth-first visit order that starts at
each child of the root node (the root itself never tested) — in
particular the empty list, not an error, when nothing matches — (c)
`query_selector` is its first element, and (d) re-running on the
unmutated document returns the identical sequence. -/
theorem C7_query_selector_all_spec (fuel : Nat) (doc : Document) (sel : Str) (q : Selector)
    (hq : parse_selector sel = some (Except.ok q)) :
    (∀ res, query_selector_all fuel doc sel = some res → ∃ r, res = Except.ok r) ∧
    (∀ pres, preorderChildren fuel doc = some pres →
      query_selector_all fuel doc sel =
        some (Except.ok (pres.filter (fun i => matches_selector doc i q)))) ∧
    query_selector fuel doc sel = (query_selector_all fuel doc sel).map (Except.map List.head?) ∧
    query_selector_all fuel doc sel = query_selector_all fuel doc sel := by
  refine ⟨?_, ?_, rfl, rfl⟩
  · intro res hres
    rw [query_selector_all, hq] at hres
    rcases hn : doc.nodes[0]? with _ | root_node
    · simp only [hn] at hres
      exact ⟨[], (Option.some.inj hres).symm⟩
    · simp only [hn] at hres
      rcases hs : search_children fuel doc root_node.children q with _ | results
      · simp only [hs] at hres
        cases hres
      · simp only [hs] at hres
        exact ⟨results, (Option.some.inj hres).symm⟩
  · intro pres hpres
    rw [query_selector_all, hq]
    rw [preorderChildren] at hpres
    rcases hn : doc.nodes[0]? with _ | root_node
    · simp only [hn] at hpres
      have hp : pres = [] := (Option.some.inj hpres).symm
      subst hp
      simp only [hn]
      rfl
    · simp only [hn] at hpres
      simp only [hn]
      simp only [(search_eq_filter fuel doc q).2]
      rw [hpres]
      rfl

/-- Witness for C7: querying `docH1` for `h1` returns exactly the filter
of the pre-order visit `[1]`, and any returned result is an `ok`. -/
theorem C7_query_selector_all_witness :
    query_selector_all 5 docH1 ("h1".toList) =
      some (Except.ok (([1] : List Nat).filter
        (fun i => matches_selector docH1 i (Selector.Element ("h1".toList))))) ∧
    (∀ res, query_selector_all 5 docH1 ("h1".toList) = some res → ∃ r, res = Except.ok r) :=
  ⟨(C7_query_selector_all_spec 5 docH1 ("h1".toList) (Selector.Element ("h1".toList)) rfl).2.1
      [1] (by decide),
   (C7_query_selector_all_spec 5 docH1 ("h1".toList) (Selector.Element ("h1".toList)) rfl).1⟩

/-! ### C5: the content box is the clamped box-model difference -/

/-- The box-model relation claim C5 asserts of every written `Layout`:
content dimensions are the clamped differences and never negative. -/
def contentOkB (l : LayoutRec) : Bool :=
  decide (l.content_width =
    max (l.width - l.padding_left - l.padding_right - 2 * l.border_width) 0) &&
  decide (l.content_height =
    max (l.height - l.padding_top - l.padding_bottom - 2 * l.border_width) 0) &&
  decide (0 ≤ l.content_width) && decide (0 ≤ l.content_height)

/-- Every layout stored anywhere in the document satisfies `contentOkB`. -/
def layoutInvB (d : Document) : Bool :=
  d.nodes.all (fun n =>
    match n.layout with
    | some l => contentOkB l
    | none => true)

theorem contentOkB_computeLayout (style : ComputedStyle) (node : Node) (pw ph : ℚ) :
    contentOkB (computeLayout style node pw ph) = true := by
  simp [contentOkB, computeLayout, le_max_right]

theorem contentOkB_set_x (l : LayoutRec) (xv : ℚ) (h : contentOkB l = true) :
    contentOkB { l with x := xv } = true := h

theorem layoutInvB_lookup (d : Document) (hd : layoutInvB d = true) (j : Nat) (n : Node)
    (hn : d.nodes[j]? = some n) (l : LayoutRec) (hl : n.layout = some l) :
    contentOkB l = true := by
  have hmem : n ∈ d.nodes := List.getElem?_mem hn
  have := List.all_eq_true.mp hd n hmem
  rw [hl] at this
  exact this

theorem layoutInvB_set (d : Document) (i : Nat) (n : Node) (hd : layoutInvB d = true)
    (hn : ∀ l, n.layout = some l → contentOkB l = true) :
    layoutInvB { d with nodes := d.nodes.set i n } = true := by
  apply List.all_eq_true.mpr
  intro m hm
  rcases List.mem_or_eq_of_mem_set hm with hold | hnew
  · exact List.all_eq_true.mp hd m hold
  · subst hnew
    rcases hml : m.layout with _ | l
    · rfl
    · exact hn l hml

/-- Joint invariant preservation for the layout pass and its two child
loops. -/
theorem layoutInvB_preserved (fuel : Nat) :
    (∀ doc idx styles pw ph doc',
      calculate_layout_recursive fuel doc idx styles pw ph = some doc' →
      layoutInvB doc = true → layoutInvB doc' = true) ∧
    (∀ doc cs styles pw ph doc',
      layout_children fuel doc cs styles pw ph = some doc' →
      layoutInvB doc = true → layoutInvB doc' = true) ∧
    (∀ doc cs styles pw ph curx doc' curx',
      layout_flex_children fuel doc cs styles pw ph curx = some (doc', curx') →
      layoutInvB doc = true → layoutInvB doc' = true) := by
  induction fuel with
  | zero =>
    refine ⟨?_, ?_, ?_⟩
    · intro doc idx styles pw ph doc' hrun
      cases hrun
    · intro doc cs styles pw ph doc' hrun
      cases cs with
      | nil => intro hd; cases hrun; exact hd
      | cons c cs => cases hrun
    · intro doc cs styles pw ph curx doc' curx' hrun
      cases cs with
      | nil => intro hd; cases hrun; exact hd
      | cons c cs => cases hrun
  | succ fuel ih =>
    refine ⟨?_, ?_, ?_⟩
    · intro doc idx styles pw ph doc' hrun hd
      rw [calculate_layout_recursive] at hrun
      rcases hn : doc.nodes[idx]? with _ | node
      · simp only [hn] at hrun
        cases hrun
      · rcases hst : styles[idx]? with _ | style
        · simp only [hn, hst] at hrun
          cases hrun
        · simp only [hn, hst] at hrun
          have hd1 : layoutInvB { doc with nodes := doc.nodes.set idx { node with layout := some (computeLayout style node pw ph) } } = true := by
            apply layoutInvB_set doc idx _ hd
            intro l hl
            have hle : computeLayout style node pw ph = l := Option.some.inj hl
            rw [← hle]
            exact contentOkB_computeLayout style node pw ph
          by_cases hdisp : style.display = Display.Flex
          · simp only [hdisp, if_true] at hrun
            rcases hflex : layout_flex_children fuel { doc with nodes := doc.nodes.set idx { node with layout := some (computeLayout style node pw ph) } } node.children styles (computeLayout style node pw ph).content_width (computeLayout style node pw ph).content_height 0 with _ | pr
            · simp only [hflex] at hrun
              cases hrun
            · simp only [hflex] at hrun
              have hstep := ih.2.2 _ node.children styles
                (computeLayout style node pw ph).content_width
                (computeLayout style node pw ph).content_height 0 pr.1 pr.2
                (by rw [hflex]) hd1
              rw [← Option.some.inj hrun]
              exact hstep
          · simp only [hdisp, if_false] at hrun
            exact ih.2.1 _ node.children styles
              (computeLayout style node pw ph).content_width
              (computeLayout style node pw ph).content_height doc' hrun hd1
    · intro doc cs styles pw ph doc' hrun hd
      cases cs with
      | nil =>
        rw [layout_children] at hrun
        rw [← Option.some.inj hrun]
        exact hd
      | cons c cs =>
        rw [layout_children] at hrun
        rcases hc : calculate_layout_recursive fuel doc c styles pw ph with _ | d
        · simp only [hc] at hrun
          cases hrun
        · simp only [hc] at hrun
          exact ih.2.1 d cs styles pw ph doc' hrun (ih.1 doc c styles pw ph d hc hd)
    · intro doc cs styles pw ph curx doc' curx' hrun hd
      cases cs with
      | nil =>
        rw [layout_flex_children] at hrun
        rw [← (Prod.mk.injEq _ _ _ _).mp (Option.some.inj hrun) |>.1]
        exact hd
      | cons c cs =>
        rw [layout_flex_children] at hrun
        rcases hc : calculate_layout_recursive fuel doc c styles pw ph with _ | d
        · simp only [hc] at hrun
          cases hrun
        · simp only [hc] at hrun
          have hdinv : layoutInvB d = true := ih.1 doc c styles pw ph d hc hd
          rcases hdn : d.nodes[c]? with _ | cn
          · simp only [hdn] at hrun
            cases hrun
          · simp only [hdn] at hrun
            rcases hcl : cn.layout with _ | l
            · simp only [hcl] at hrun
              exact ih.2.2 d cs styles pw ph curx doc' curx' hrun hdinv
            · simp only [hcl] at hrun
              have hok : contentOkB l = true := layoutInvB_lookup d hdinv c cn hdn l hcl
              have hd2 : layoutInvB { d with nodes := d.nodes.set c { cn with layout := some { l with x := curx } } } = true := by
                apply layoutInvB_set d c _ hdinv
                intro l2 hl2
                have hle : ({ l with x := curx } : LayoutRec) = l2 := Option.some.inj hl2
                rw [← hle]
                exact contentOkB_set_x l curx hok
              exact ih.2.2 _ cs styles pw ph (curx + l.width) doc' curx' hrun hd2

/-- Claim C5: after any run of the layout pass on a document all of whose
pre-existing layouts already satisfy the relation (in particular a fresh
document with no layouts), every stored `Layout` satisfies
`content_width = max(width - padding_left - padding_right - 2*border_width, 0)`,
symmetrically for the height, and the content dimensions are never
negative. -/
theorem C5_content_box_clamped (fuel : Nat) (doc : Document) (idx : Nat)
    (styles : List ComputedStyle) (pw ph : ℚ) (doc' : Document)
    (hrun : calculate_layout_recursive fuel doc idx styles pw ph = some doc')
    (hd : layoutInvB doc = true) :
    ∀ j l, layAt doc' j = some l →
      l.content_width =
        max (l.width - l.padding_left - l.padding_right - 2 * l.border_width) 0 ∧
      l.content_height =
        max (l.height - l.padding_top - l.padding_bottom - 2 * l.border_width) 0 ∧
      0 ≤ l.content_width ∧ 0 ≤ l.content_height := by
  intro j l hl
  have hinv' : layoutInvB doc' = true :=
    (layoutInvB_preserved fuel).1 doc idx styles pw ph doc' hrun hd
  rw [layAt] at hl
  rcases hn : doc'.nodes[j]? with _ | n
  · rw [hn] at hl; cases hl
  · rw [hn] at hl
    have hok := layoutInvB_lookup doc' hinv' j n hn l hl
    simp only [contentOkB, Bool.and_eq_true, decide_eq_true_eq] at hok
    exact ⟨hok.1.1.1, hok.1.1.2, hok.1.2, hok.2⟩

/-- Witness for C5: one layout step on the fresh one-node document against
a 100×200 viewport writes a 100×100 box whose content box satisfies the
clamped relation. -/
theorem C5_content_box_witness :
    ({ x := 0, y := 0, width := 100, height := 100, content_width := 100,
       content_height := 100, padding_top := 0, padding_right := 0, padding_bottom := 0,
       padding_left := 0, margin_top := 0, margin_right := 0, margin_bottom := 0,
       margin_left := 0, border_width := 0, font_size := 16,
       display := Display.Block } : LayoutRec).content_width =
      max ((100 : ℚ) - 0 - 0 - 2 * 0) 0 ∧
    ({ x := 0, y := 0, width := 100, height := 100, content_width := 100,
       content_height := 100, padding_top := 0, padding_right := 0, padding_bottom := 0,
       padding_left := 0, margin_top := 0, margin_right := 0, margin_bottom := 0,
       margin_left := 0, border_width := 0, font_size := 16,
       display := Display.Block } : LayoutRec).content_height =
      max ((100 : ℚ) - 0 - 0 - 2 * 0) 0 ∧
    (0 : ℚ) ≤ 100 ∧ (0 : ℚ) ≤ 100 := by
  have happ := C5_content_box_clamped 1 Document.new 0 [ComputedStyle.default] 100 200
    { nodes := [{ node_type := NodeType.Document, parent := none, children := [], data := none, shadow_root := none, event_listeners := [], layout := some { x := 0, y := 0, width := 100, height := 100, content_width := 100, content_height := 100, padding_top := 0, padding_right := 0, padding_bottom := 0, padding_left := 0, margin_top := 0, margin_right := 0, margin_bottom := 0, margin_left := 0, border_width := 0, font_size := 16, display := Display.Block } }], root := 0 }
    (by
      norm_num [calculate_layout_recursive, layout_children, computeLayout,
        calculate_dimensions, CSSValue.as_pixels, ComputedStyle.default, Document.new]
      exact fun h => absurd h (by decide))
    (by decide) 0
    { x := 0, y := 0, width := 100, height := 100, content_width := 100,
      content_height := 100, padding_top := 0, padding_right := 0, padding_bottom := 0,
      padding_left := 0, margin_top := 0, margin_right := 0, margin_bottom := 0,
      margin_left := 0, border_width := 0, font_size := 16, display := Display.Block }
    (by decide)
  exact happ

/-! ### Structural lemmas for the layout pass: preservation, frame,
congruence (used by C6 and C10) -/

theorem LayPres_refl (d : Document) : LayPres d d :=
  ⟨rfl, rfl, fun _ => rfl⟩

theorem LayPres_trans {d1 d2 d3 : Document} (h12 : LayPres d1 d2) (h23 : LayPres d2 d3) :
    LayPres d1 d3 :=
  ⟨h23.1.trans h12.1, h23.2.1.trans h12.2.1, fun j => (h23.2.2 j).trans (h12.2.2 j)⟩

theorem SkelEq_trans {d1 d2 d3 : Document} (h12 : SkelEq d1 d2) (h23 : SkelEq d2 d3) :
    SkelEq d1 d3 :=
  ⟨h12.1.trans h23.1, fun j => (h12.2 j).trans (h23.2 j)⟩

theorem SkelEq_of_LayPres {d d' : Document} (h : LayPres d d') : SkelEq d d' := by
  refine ⟨h.2.1.symm, fun j => ?_⟩
  have h2 := congrArg (Option.map NodeShape) (h.2.2 j)
  simp only [Option.map_map] at h2
  have hcomp : NodeShape ∘ stripLayout = NodeShape := by
    funext n
    rfl
  rw [hcomp] at h2
  exact h2.symm

theorem LayPres_set_layout (d : Document) (i : Nat) (n : Node) (lo : Option LayoutRec)
    (hn : d.nodes[i]? = some n) :
    LayPres d { d with nodes := d.nodes.set i { n with layout := lo } } := by
  refine ⟨rfl, by simp, fun j => ?_⟩
  by_cases hj : j = i
  · subst hj
    have hi : j < d.nodes.length := (List.getElem?_eq_some.mp hn).1
    rw [List.getElem?_set_eq_of_lt _ hi, hn]
    rfl
  · rw [List.getElem?_set_ne (fun he => hj he.symm)]

/-- The layout pass only rewrites layout annotations: root, length and
every non-layout field of every node are preserved. -/
theorem layPres_layout (fuel : Nat) :
    (∀ doc idx styles pw ph doc',
      calculate_layout_recursive fuel doc idx styles pw ph = some doc' → LayPres doc doc') ∧
    (∀ doc cs styles pw ph doc',
      layout_children fuel doc cs styles pw ph = some doc' → LayPres doc doc') ∧
    (∀ doc cs styles pw ph curx doc' curx',
      layout_flex_children fuel doc cs styles pw ph curx = some (doc', curx') →
      LayPres doc doc') := by
  induction fuel with
  | zero =>
    refine ⟨?_, ?_, ?_⟩
    · intro doc idx styles pw ph doc' hrun
      cases hrun
    · intro doc cs styles pw ph doc' hrun
      cases cs with
      | nil => cases hrun; exact LayPres_refl doc
      | cons c cs => cases hrun
    · intro doc cs styles pw ph curx doc' curx' hrun
      cases cs with
      | nil => cases hrun; exact LayPres_refl doc
      | cons c cs => cases hrun
  | succ fuel ih =>
    refine ⟨?_, ?_, ?_⟩
    · intro doc idx styles pw ph doc' hrun
      rw [calculate_layout_recursive] at hrun
      rcases hn : doc.nodes[idx]? with _ | node
      · simp only [hn] at hrun
        cases hrun
      · rcases hst : styles[idx]? with _ | style
        · simp only [hn, hst] at hrun
          cases hrun
        · simp only [hn, hst] at hrun
          have hd1 : LayPres doc { doc with nodes := doc.nodes.set idx { node with layout := some (computeLayout style node pw ph) } } :=
            LayPres_set_layout doc idx node _ hn
          by_cases hdisp : style.display = Display.Flex
          · simp only [hdisp, if_true] at hrun
            rcases hflex : layout_flex_children fuel { doc with nodes := doc.nodes.set idx { node with layout := some (computeLayout style node pw ph) } } node.children styles (computeLayout style node pw ph).content_width (computeLayout style node pw ph).content_height 0 with _ | pr
            · simp only [hflex] at hrun
              cases hrun
            · simp only [hflex] at hrun
              have hstep := ih.2.2 _ node.children styles
                (computeLayout style node pw ph).content_width
                (computeLayout style node pw ph).content_height 0 pr.1 pr.2
                (by rw [hflex])
              rw [← Option.some.inj hrun]
              exact LayPres_trans hd1 hstep
          · simp only [hdisp, if_false] at hrun
            exact LayPres_trans hd1 (ih.2.1 _ node.children styles
              (computeLayout style node pw ph).content_width
              (computeLayout style node pw ph).content_height doc' hrun)
    · intro doc cs styles pw ph doc' hrun
      cases cs with
      | nil =>
        rw [layout_children] at hrun
        rw [← Option.some.inj hrun]
        exact LayPres_refl doc
      | cons c cs =>
        rw [layout_children] at hrun
        rcases hc : calculate_layout_recursive fuel doc c styles pw ph with _ | d
        · simp only [hc] at hrun
          cases hrun
        · simp only [hc] at hrun
          exact LayPres_trans (ih.1 doc c styles pw ph d hc)
            (ih.2.1 d cs styles pw ph doc' hrun)
    · intro doc cs styles pw ph curx doc' curx' hrun
      cases cs with
      | nil =>
        rw [layout_flex_children] at hrun
        rw [← (Prod.mk.injEq _ _ _ _).mp (Option.some.inj hrun) |>.1]
        exact LayPres_refl doc
      | cons c cs =>
        rw [layout_flex_children] at hrun
        rcases hc : calculate_layout_recursive fuel doc c styles pw ph with _ | d
        · simp only [hc] at hrun
          cases hrun
        · simp only [hc] at hrun
          have hdp : LayPres doc d := ih.1 doc c styles pw ph d hc
          rcases hdn : d.nodes[c]? with _ | cn
          · simp only [hdn] at hrun
            cases hrun
          · simp only [hdn] at hrun
            rcases hcl : cn.layout with _ | l
            · simp only [hcl] at hrun
              exact LayPres_trans hdp (ih.2.2 d cs styles pw ph curx doc' curx' hrun)
            · simp only [hcl] at hrun
              have hd2 : LayPres d { d with nodes := d.nodes.set c { cn with layout := some { l with x := curx } } } :=
                LayPres_set_layout d c cn _ hdn
              exact LayPres_trans (LayPres_trans hdp hd2)
                (ih.2.2 _ cs styles pw ph (curx + l.width) doc' curx' hrun)

/-- `touch` reads only node types and child lists, so it is identical on
skeleton-equal documents. -/
theorem touch_congr (fuel : Nat) :
    (∀ d1 d2 idx, SkelEq d1 d2 → touch fuel d1 idx = touch fuel d2 idx) ∧
    (∀ d1 d2 cs, SkelEq d1 d2 → touchList fuel d1 cs = touchList fuel d2 cs) := by
  induction fuel with
  | zero =>
    constructor
    · intro d1 d2 idx _
      rfl
    · intro d1 d2 cs _
      cases cs with
      | nil => rfl
      | cons c cs => rfl
  | succ fuel ih =>
    constructor
    · intro d1 d2 idx hsk
      rw [touch, touch]
      have hj := hsk.2 idx
      rcases h1 : d1.nodes[idx]? with _ | n1
      · rcases h2 : d2.nodes[idx]? with _ | n2
        · simp only [h1, h2]
        · rw [h1, h2] at hj
          cases hj
      · rcases h2 : d2.nodes[idx]? with _ | n2
        · rw [h1, h2] at hj
          cases hj
        · rw [h1, h2] at hj
          have hch : n1.children = n2.children :=
            congrArg Prod.snd (Option.some.inj hj)
          simp only [h1, h2]
          rw [hch, ih.2 d1 d2 n2.children hsk]
    · intro d1 d2 cs hsk
      cases cs with
      | nil => rfl
      | cons c cs =>
        rw [touchList, touchList, ih.1 d1 d2 c hsk, ih.2 d1 d2 cs hsk]

/-- `touch` always contains its own root once there is fuel to enter it. -/
theorem self_mem_touch_succ (fuel : Nat) (d : Document) (c : Nat) :
    c ∈ touch (Nat.succ fuel) d c := by
  rw [touch]
  rcases d.nodes[c]? with _ | n
  · exact List.mem_singleton.mpr rfl
  · exact List.mem_cons_self c _

/-- Frame property: the layout pass leaves every node outside its `touch`
over-approximation untouched. -/
theorem frame_layout (fuel : Nat) :
    (∀ doc idx styles pw ph doc',
      calculate_layout_recursive fuel doc idx styles pw ph = some doc' →
      ∀ j, j ∉ touch fuel doc idx → doc'.nodes[j]? = doc.nodes[j]?) ∧
    (∀ doc cs styles pw ph doc',
      layout_children fuel doc cs styles pw ph = some doc' →
      ∀ j, j ∉ touchList fuel doc cs → doc'.nodes[j]? = doc.nodes[j]?) ∧
    (∀ doc cs styles pw ph curx doc' curx',
      layout_flex_children fuel doc cs styles pw ph curx = some (doc', curx') →
      ∀ j, j ∉ touchList fuel doc cs → doc'.nodes[j]? = doc.nodes[j]?) := by
  induction fuel with
  | zero =>
    refine ⟨?_, ?_, ?_⟩
    · intro doc idx styles pw ph doc' hrun
      cases hrun
    · intro doc cs styles pw ph doc' hrun
      cases cs with
      | nil => cases hrun; intro j _; rfl
      | cons c cs => cases hrun
    · intro doc cs styles pw ph curx doc' curx' hrun
      cases cs with
      | nil => cases hrun; intro j _; rfl
      | cons c cs => cases hrun
  | succ fuel ih =>
    refine ⟨?_, ?_, ?_⟩
    · intro doc idx styles pw ph doc' hrun j hj
      rw [touch] at hj
      rw [calculate_layout_recursive] at hrun
      rcases hn : doc.nodes[idx]? with _ | node
      · simp only [hn] at hrun
        cases hrun
      · simp only [hn] at hj
        have hji : j ≠ idx := fun he => hj (he ▸ List.mem_cons_self idx _)
        have hjl : j ∉ touchList fuel doc node.children := fun hm => hj (List.mem_cons_of_mem idx hm)
        rcases hst : styles[idx]? with _ | style
        · simp only [hn, hst] at hrun
          cases hrun
        · simp only [hn, hst] at hrun
          have hset : ({ doc with nodes := doc.nodes.set idx { node with layout := some (computeLayout style node pw ph) } } : Document).nodes[j]? = doc.nodes[j]? :=
            List.getElem?_set_ne (fun he => hji he.symm)
          have hskel : SkelEq doc { doc with nodes := doc.nodes.set idx { node with layout := some (computeLayout style node pw ph) } } :=
            SkelEq_of_LayPres (LayPres_set_layout doc idx node _ hn)
          have hjl1 : j ∉ touchList fuel { doc with nodes := doc.nodes.set idx { node with layout := some (computeLayout style node pw ph) } } node.children := by
            rw [← (touch_congr fuel).2 doc _ node.children hskel]
            exact hjl
          by_cases hdisp : style.display = Display.Flex
          · simp only [hdisp, if_true] at hrun
            rcases hflex : layout_flex_children fuel { doc with nodes := doc.nodes.set idx { node with layout := some (computeLayout style node pw ph) } } node.children styles (computeLayout style node pw ph).content_width (computeLayout style node pw ph).content_height 0 with _ | pr
            · simp only [hflex] at hrun
              cases hrun
            · simp only [hflex] at hrun
              have hstep := ih.2.2 _ node.children styles
                (computeLayout style node pw ph).content_width
                (computeLayout style node pw ph).content_height 0 pr.1 pr.2
                (by rw [hflex]) j hjl1
              rw [← Option.some.inj hrun, hstep, hset]
          · simp only [hdisp, if_false] at hrun
            have hstep := ih.2.1 _ node.children styles
              (computeLayout style node pw ph).content_width
              (computeLayout style node pw ph).content_height doc' hrun j hjl1
            rw [hstep, hset]
    · intro doc cs styles pw ph doc' hrun j hj
      cases cs with
      | nil =>
        rw [layout_children] at hrun
        rw [← Option.some.inj hrun]
      | cons c cs =>
        rw [touchList] at hj
        have hjc : j ∉ touch fuel doc c := fun hm => hj (List.mem_append_left _ hm)
        have hjcs : j ∉ touchList fuel doc cs := fun hm => hj (List.mem_append_right _ hm)
        rw [layout_children] at hrun
        rcases hc : calculate_layout_recursive fuel doc c styles pw ph with _ | d
        · simp only [hc] at hrun
          cases hrun
        · simp only [hc] at hrun
          have h1 : d.nodes[j]? = doc.nodes[j]? := ih.1 doc c styles pw ph d hc j hjc
          have hskel : SkelEq doc d := SkelEq_of_LayPres ((layPres_layout fuel).1 doc c styles pw ph d hc)
          have hjcs' : j ∉ touchList fuel d cs := by
            rw [← (touch_congr fuel).2 doc d cs hskel]
            exact hjcs
          rw [ih.2.1 d cs styles pw ph doc' hrun j hjcs', h1]
    · intro doc cs styles pw ph curx doc' curx' hrun j hj
      cases cs with
      | nil =>
        rw [layout_flex_children] at hrun
        rw [← (Prod.mk.injEq _ _ _ _).mp (Option.some.inj hrun) |>.1]
      | cons c cs =>
        rw [touchList] at hj
        have hjc : j ∉ touch fuel doc c := fun hm => hj (List.mem_append_left _ hm)
        have hjcs : j ∉ touchList fuel doc cs := fun hm => hj (List.mem_append_right _ hm)
        rw [layout_flex_children] at hrun
        rcases hc : calculate_layout_recursive fuel doc c styles pw ph with _ | d
        · simp only [hc] at hrun
          cases hrun
        · simp only [hc] at hrun
          have hfi : fuel ≠ 0 := by
            intro h0
            subst h0
            cases hc
          obtain ⟨fuel2, hf2⟩ : ∃ fuel2, fuel = Nat.succ fuel2 :=
            Nat.exists_eq_succ_of_ne_zero hfi
          have hjnec : j ≠ c := by
            intro he
            subst he
            exact hjc (hf2 ▸ self_mem_touch_succ fuel2 doc j)
          have h1 : d.nodes[j]? = doc.nodes[j]? := ih.1 doc c styles pw ph d hc j hjc
          have hskel : SkelEq doc d := SkelEq_of_LayPres ((layPres_layout fuel).1 doc c styles pw ph d hc)
          rcases hdn : d.nodes[c]? with _ | cn
          · simp only [hdn] at hrun
            cases hrun
          · simp only [hdn] at hrun
            rcases hcl : cn.layout with _ | l
            · simp only [hcl] at hrun
              have hjcs' : j ∉ touchList fuel d cs := by
                rw [← (touch_congr fuel).2 doc d cs hskel]
                exact hjcs
              rw [ih.2.2 d cs styles pw ph curx doc' curx' hrun j hjcs', h1]
            · simp only [hcl] at hrun
              have hskel2 : SkelEq doc { d with nodes := d.nodes.set c { cn with layout := some { l with x := curx } } } :=
                SkelEq_trans hskel (SkelEq_of_LayPres (LayPres_set_layout d c cn _ hdn))
              have hjcs' : j ∉ touchList fuel { d with nodes := d.nodes.set c { cn with layout := some { l with x := curx } } } cs := by
                rw [← (touch_congr fuel).2 doc _ cs hskel2]
                exact hjcs
              have hset : ({ d with nodes := d.nodes.set c { cn with layout := some { l with x := curx } } } : Document).nodes[j]? = d.nodes[j]? :=
                List.getElem?_set_ne (fun he => hjnec he.symm)
              rw [ih.2.2 _ cs styles pw ph (curx + l.width) doc' curx' hrun j hjcs', hset, h1]

theorem SkelEq_symm {d1 d2 : Document} (h : SkelEq d1 d2) : SkelEq d2 d1 :=
  ⟨h.1.symm, fun j => (h.2 j).symm⟩

theorem layAt_set_eq (d : Document) (i : Nat) (n : Node) (lo : Option LayoutRec)
    (h : d.nodes[i]? = some n) :
    layAt { d with nodes := d.nodes.set i { n with layout := lo } } i = lo := by
  have hi : i < d.nodes.length := (List.getElem?_eq_some.mp h).1
  rw [layAt]
  rw [List.getElem?_set_eq_of_lt _ hi]
  rfl

theorem layAt_set_ne (d : Document) (i : Nat) (n : Node) (j : Nat) (hne : j ≠ i) :
    layAt { d with nodes := d.nodes.set i n } j = layAt d j := by
  rw [layAt, layAt]
  rw [List.getElem?_set_ne (fun he => hne he.symm)]

theorem layAt_some_inv {d : Document} {j : Nat} {l : LayoutRec}
    (h : layAt d j = some l) :
    ∃ n, d.nodes[j]? = some n ∧ n.layout = some l := by
  rw [layAt] at h
  rcases hn : d.nodes[j]? with _ | n
  · rw [hn] at h
    cases h
  · rw [hn] at h
    exact ⟨n, rfl, h⟩

/-- Two-run output relation: at every index, either both runs left the
layout annotation as it was in their respective inputs, or the two runs
agree on it. -/
def LayMatch (d1 d2 e1 e2 : Document) : Prop :=
  ∀ j : Nat, (layAt e1 j = layAt d1 j ∧ layAt e2 j = layAt d2 j) ∨ layAt e1 j = layAt e2 j

theorem LayMatch_refl (d1 d2 : Document) : LayMatch d1 d2 d1 d2 :=
  fun _ => Or.inl ⟨rfl, rfl⟩

theorem LayMatch_trans {d1 d2 m1 m2 e1 e2 : Document}
    (hA : LayMatch d1 d2 m1 m2) (hB : LayMatch m1 m2 e1 e2) : LayMatch d1 d2 e1 e2 := by
  intro j
  rcases hB j with ⟨hb1, hb2⟩ | hb
  · rcases hA j with ⟨ha1, ha2⟩ | ha
    · exact Or.inl ⟨hb1.trans ha1, hb2.trans ha2⟩
    · exact Or.inr (by rw [hb1, hb2, ha])
  · exact Or.inr hb

theorem LayMatch_set_both {d1 d2 : Document} (i : Nat) (n1 n2 : Node) (lo : Option LayoutRec)
    (h1 : d1.nodes[i]? = some n1) (h2 : d2.nodes[i]? = some n2) :
    LayMatch d1 d2
      { d1 with nodes := d1.nodes.set i { n1 with layout := lo } }
      { d2 with nodes := d2.nodes.set i { n2 with layout := lo } } := by
  intro j
  by_cases hj : j = i
  · subst hj
    exact Or.inr ((layAt_set_eq d1 j n1 lo h1).trans (layAt_set_eq d2 j n2 lo h2).symm)
  · exact Or.inl ⟨layAt_set_ne d1 i _ j hj, layAt_set_ne d2 i _ j hj⟩

theorem calculate_dimensions_congr (style : ComputedStyle) (pw ph : ℚ) {n1 n2 : Node}
    (h : NodeShape n1 = NodeShape n2) :
    calculate_dimensions style pw ph n1 = calculate_dimensions style pw ph n2 := by
  have ht : n1.node_type = n2.node_type := congrArg Prod.fst h
  rw [calculate_dimensions, calculate_dimensions, ht]

theorem computeLayout_congr (style : ComputedStyle) (pw ph : ℚ) {n1 n2 : Node}
    (h : NodeShape n1 = NodeShape n2) :
    computeLayout style n1 pw ph = computeLayout style n2 pw ph := by
  rw [computeLayout, computeLayout, calculate_dimensions_congr style pw ph h]

/-- Every layout annotation after a run is either the one the input
carried or a freshly written one — never erased. -/
theorem lay_some_mono (fuel : Nat) :
    (∀ doc idx styles pw ph doc',
      calculate_layout_recursive fuel doc idx styles pw ph = some doc' →
      ∀ j : Nat, layAt doc' j = layAt doc j ∨ (layAt doc' j).isSome = true) ∧
    (∀ doc cs styles pw ph doc',
      layout_children fuel doc cs styles pw ph = some doc' →
      ∀ j : Nat, layAt doc' j = layAt doc j ∨ (layAt doc' j).isSome = true) ∧
    (∀ doc cs styles pw ph curx doc' curx',
      layout_flex_children fuel doc cs styles pw ph curx = some (doc', curx') →
      ∀ j : Nat, layAt doc' j = layAt doc j ∨ (layAt doc' j).isSome = true) := by
  have hcomp : ∀ (dA dB dC : Document),
      (∀ j : Nat, layAt dB j = layAt dA j ∨ (layAt dB j).isSome = true) →
      (∀ j : Nat, layAt dC j = layAt dB j ∨ (layAt dC j).isSome = true) →
      (∀ j : Nat, layAt dC j = layAt dA j ∨ (layAt dC j).isSome = true) := by
    intro dA dB dC hAB hBC j
    rcases hBC j with hb | hb
    · rcases hAB j with ha | ha
      · exact Or.inl (hb.trans ha)
      · exact Or.inr (by rw [hb]; exact ha)
    · exact Or.inr hb
  have hset : ∀ (d : Document) (i : Nat) (n : Node) (l : LayoutRec),
      d.nodes[i]? = some n →
      ∀ j : Nat, layAt { d with nodes := d.nodes.set i { n with layout := some l } } j = layAt d j ∨
        (layAt { d with nodes := d.nodes.set i { n with layout := some l } } j).isSome = true := by
    intro d i n l hn j
    by_cases hj : j = i
    · subst hj
      rw [layAt_set_eq d j n _ hn]
      exact Or.inr rfl
    · rw [layAt_set_ne d i _ j hj]
      exact Or.inl rfl
  induction fuel with
  | zero =>
    refine ⟨?_, ?_, ?_⟩
    · intro doc idx styles pw ph doc' hrun
      cases hrun
    · intro doc cs styles pw ph doc' hrun
      cases cs with
      | nil => cases hrun; intro j; exact Or.inl rfl
      | cons c cs => cases hrun
    · intro doc cs styles pw ph curx doc' curx' hrun
      cases cs with
      | nil => cases hrun; intro j; exact Or.inl rfl
      | cons c cs => cases hrun
  | succ fuel ih =>
    refine ⟨?_, ?_, ?_⟩
    · intro doc idx styles pw ph doc' hrun
      rw [calculate_layout_recursive] at hrun
      rcases hn : doc.nodes[idx]? with _ | node
      · simp only [hn] at hrun
        cases hrun
      · rcases hst : styles[idx]? with _ | style
        · simp only [hn, hst] at hrun
          cases hrun
        · simp only [hn, hst] at hrun
          have hstep1 := hset doc idx node (computeLayout style node pw ph) hn
          by_cases hdisp : style.display = Display.Flex
          · simp only [hdisp, if_true] at hrun
            rcases hflex : layout_flex_children fuel { doc with nodes := doc.nodes.set idx { node with layout := some (computeLayout style node pw ph) } } node.children styles (computeLayout style node pw ph).content_width (computeLayout style node pw ph).content_height 0 with _ | pr
            · simp only [hflex] at hrun
              cases hrun
            · simp only [hflex] at hrun
              have hstep2 := ih.2.2 _ node.children styles
                (computeLayout style node pw ph).content_width
                (computeLayout style node pw ph).content_height 0 pr.1 pr.2
                (by rw [hflex])
              rw [← Option.some.inj hrun]
              exact hcomp _ _ _ hstep1 hstep2
          · simp only [hdisp, if_false] at hrun
            have hstep2 := ih.2.1 _ node.children styles
              (computeLayout style node pw ph).content_width
              (computeLayout style node pw ph).content_height doc' hrun
            exact hcomp _ _ _ hstep1 hstep2
    · intro doc cs styles pw ph doc' hrun
      cases cs with
      | nil =>
        rw [layout_children] at hrun
        rw [← Option.some.inj hrun]
        intro j
        exact Or.inl rfl
      | cons c cs =>
        rw [layout_children] at hrun
        rcases hc : calculate_layout_recursive fuel doc c styles pw ph with _ | d
        · simp only [hc] at hrun
          cases hrun
        · simp only [hc] at hrun
          exact hcomp _ _ _ (ih.1 doc c styles pw ph d hc) (ih.2.1 d cs styles pw ph doc' hrun)
    · intro doc cs styles pw ph curx doc' curx' hrun
      cases cs with
      | nil =>
        rw [layout_flex_children] at hrun
        rw [← (Prod.mk.injEq _ _ _ _).mp (Option.some.inj hrun) |>.1]
        intro j
        exact Or.inl rfl
      | cons c cs =>
        rw [layout_flex_children] at hrun
        rcases hc : calculate_layout_recursive fuel doc c styles pw ph with _ | d
        · simp only [hc] at hrun
          cases hrun
        · simp only [hc] at hrun
          have hd1 := ih.1 doc c styles pw ph d hc
          rcases hdn : d.nodes[c]? with _ | cn
          · simp only [hdn] at hrun
            cases hrun
          · simp only [hdn] at hrun
            rcases hcl : cn.layout with _ | l
            · simp only [hcl] at hrun
              exact hcomp _ _ _ hd1 (ih.2.2 d cs styles pw ph curx doc' curx' hrun)
            · simp only [hcl] at hrun
              exact hcomp _ _ _ hd1 (hcomp _ _ _ (hset d c cn _ hdn)
                (ih.2.2 _ cs styles pw ph (curx + l.width) doc' curx' hrun))

/-- Two-run congruence: on skeleton-equal documents (same node types and
child lists, any data and layouts) the layout pass takes the same
branches, writes the same layout values, and fails identically; the root
node of the call ends with the same written layout in both runs. -/
theorem congr_layout (fuel : Nat) :
    (∀ d1 d2 idx styles pw ph, SkelEq d1 d2 →
      (calculate_layout_recursive fuel d1 idx styles pw ph = none ∧
        calculate_layout_recursive fuel d2 idx styles pw ph = none) ∨
      (∃ e1 e2, calculate_layout_recursive fuel d1 idx styles pw ph = some e1 ∧
        calculate_layout_recursive fuel d2 idx styles pw ph = some e2 ∧
        (∃ l, layAt e1 idx = some l ∧ layAt e2 idx = some l) ∧ LayMatch d1 d2 e1 e2)) ∧
    (∀ d1 d2 cs styles pw ph, SkelEq d1 d2 →
      (layout_children fuel d1 cs styles pw ph = none ∧
        layout_children fuel d2 cs styles pw ph = none) ∨
      (∃ e1 e2, layout_children fuel d1 cs styles pw ph = some e1 ∧
        layout_children fuel d2 cs styles pw ph = some e2 ∧ LayMatch d1 d2 e1 e2)) ∧
    (∀ d1 d2 cs styles pw ph curx, SkelEq d1 d2 →
      (layout_flex_children fuel d1 cs styles pw ph curx = none ∧
        layout_flex_children fuel d2 cs styles pw ph curx = none) ∨
      (∃ e1 e2 xf, layout_flex_children fuel d1 cs styles pw ph curx = some (e1, xf) ∧
        layout_flex_children fuel d2 cs styles pw ph curx = some (e2, xf) ∧
        LayMatch d1 d2 e1 e2)) := by
  induction fuel with
  | zero =>
    refine ⟨?_, ?_, ?_⟩
    · intro d1 d2 idx styles pw ph _
      exact Or.inl ⟨by trivial, by trivial⟩
    · intro d1 d2 cs styles pw ph _
      cases cs with
      | nil => exact Or.inr ⟨d1, d2, rfl, rfl, LayMatch_refl d1 d2⟩
      | cons c cs => exact Or.inl ⟨by trivial, by trivial⟩
    · intro d1 d2 cs styles pw ph curx _
      cases cs with
      | nil => exact Or.inr ⟨d1, d2, curx, rfl, rfl, LayMatch_refl d1 d2⟩
      | cons c cs => exact Or.inl ⟨by trivial, by trivial⟩
  | succ fuel ih =>
    refine ⟨?_, ?_, ?_⟩
    · intro d1 d2 idx styles pw ph hsk
      have hjx := hsk.2 idx
      simp only [calculate_layout_recursive]
      rcases hn1 : d1.nodes[idx]? with _ | n1
      · rcases hn2 : d2.nodes[idx]? with _ | n2
        · simp only [hn1, hn2]
          exact Or.inl ⟨by trivial, by trivial⟩
        · rw [hn1, hn2] at hjx
          cases hjx
      · rcases hn2 : d2.nodes[idx]? with _ | n2
        · rw [hn1, hn2] at hjx
          cases hjx
        · rw [hn1, hn2] at hjx
          have hshape : NodeShape n1 = NodeShape n2 := Option.some.inj hjx
          have hch : n1.children = n2.children := congrArg Prod.snd hshape
          rcases hst : styles[idx]? with _ | style
          · simp only [hn1, hn2, hst]
            exact Or.inl ⟨by trivial, by trivial⟩
          · simp only [hn1, hn2, hst]
            have hL : computeLayout style n2 pw ph = computeLayout style n1 pw ph :=
              (computeLayout_congr style pw ph hshape).symm
            have hn2' : d2.nodes[idx]? = some { n2 with children := n1.children } := by
              rw [hch]
              exact hn2
            rw [hL, ← hch]
            have hm0 : LayMatch d1 d2
                { d1 with nodes := d1.nodes.set idx { n1 with layout := some (computeLayout style n1 pw ph) } }
                { d2 with nodes := d2.nodes.set idx { n2 with children := n1.children, layout := some (computeLayout style n1 pw ph) } } :=
              LayMatch_set_both idx n1 { n2 with children := n1.children } _ hn1 hn2'
            have hlay1 : layAt { d1 with nodes := d1.nodes.set idx { n1 with layout := some (computeLayout style n1 pw ph) } } idx = some (computeLayout style n1 pw ph) :=
              layAt_set_eq d1 idx n1 _ hn1
            have hlay2 : layAt { d2 with nodes := d2.nodes.set idx { n2 with children := n1.children, layout := some (computeLayout style n1 pw ph) } } idx = some (computeLayout style n1 pw ph) :=
              layAt_set_eq d2 idx { n2 with children := n1.children } _ hn2'
            have hskD : SkelEq
                { d1 with nodes := d1.nodes.set idx { n1 with layout := some (computeLayout style n1 pw ph) } }
                { d2 with nodes := d2.nodes.set idx { n2 with children := n1.children, layout := some (computeLayout style n1 pw ph) } } :=
              SkelEq_trans (SkelEq_symm (SkelEq_of_LayPres (LayPres_set_layout d1 idx n1 _ hn1)))
                (SkelEq_trans hsk (SkelEq_of_LayPres (LayPres_set_layout d2 idx { n2 with children := n1.children } _ hn2')))
            by_cases hdisp : style.display = Display.Flex
            · simp only [hdisp, if_true]
              rcases ih.2.2 _ _ n1.children styles
                  (computeLayout style n1 pw ph).content_width
                  (computeLayout style n1 pw ph).content_height 0 hskD with ⟨hA, hB⟩ | ⟨m1, m2, xf, hA, hB, hM⟩
              · simp only [hA, hB]
                exact Or.inl ⟨by trivial, by trivial⟩
              · simp only [hA, hB]
                refine Or.inr ⟨m1, m2, rfl, rfl, ?_, LayMatch_trans hm0 hM⟩
                rcases hM idx with ⟨hp1, hp2⟩ | heq
                · exact ⟨computeLayout style n1 pw ph, hp1.trans hlay1, hp2.trans hlay2⟩
                · rcases (lay_some_mono fuel).2.2 _ n1.children styles
                      (computeLayout style n1 pw ph).content_width
                      (computeLayout style n1 pw ph).content_height 0 m1 xf hA idx with hx | hx
                  · exact ⟨computeLayout style n1 pw ph, hx.trans hlay1, heq ▸ (hx.trans hlay1)⟩
                  · obtain ⟨l, hl⟩ := Option.isSome_iff_exists.mp hx
                    exact ⟨l, hl, heq ▸ hl⟩
            · simp only [hdisp, if_false]
              rcases ih.2.1 _ _ n1.children styles
                  (computeLayout style n1 pw ph).content_width
                  (computeLayout style n1 pw ph).content_height hskD with ⟨hA, hB⟩ | ⟨m1, m2, hA, hB, hM⟩
              · simp only [hA, hB]
                exact Or.inl ⟨by trivial, by trivial⟩
              · simp only [hA, hB]
                refine Or.inr ⟨m1, m2, rfl, rfl, ?_, LayMatch_trans hm0 hM⟩
                rcases hM idx with ⟨hp1, hp2⟩ | heq
                · exact ⟨computeLayout style n1 pw ph, hp1.trans hlay1, hp2.trans hlay2⟩
                · rcases (lay_some_mono fuel).2.1 _ n1.children styles
                      (computeLayout style n1 pw ph).content_width
                      (computeLayout style n1 pw ph).content_height m1 hA idx with hx | hx
                  · exact ⟨computeLayout style n1 pw ph, hx.trans hlay1, heq ▸ (hx.trans hlay1)⟩
                  · obtain ⟨l, hl⟩ := Option.isSome_iff_exists.mp hx
                    exact ⟨l, hl, heq ▸ hl⟩
    · intro d1 d2 cs styles pw ph hsk
      cases cs with
      | nil => exact Or.inr ⟨d1, d2, rfl, rfl, LayMatch_refl d1 d2⟩
      | cons c cs =>
        simp only [layout_children]
        rcases ih.1 d1 d2 c styles pw ph hsk with ⟨hA, hB⟩ | ⟨e1, e2, hA, hB, _, hM⟩
        · simp only [hA, hB]
          exact Or.inl ⟨by trivial, by trivial⟩
        · simp only [hA, hB]
          have hskE : SkelEq e1 e2 :=
            SkelEq_trans (SkelEq_symm (SkelEq_of_LayPres ((layPres_layout fuel).1 d1 c styles pw ph e1 hA)))
              (SkelEq_trans hsk (SkelEq_of_LayPres ((layPres_layout fuel).1 d2 c styles pw ph e2 hB)))
          rcases ih.2.1 e1 e2 cs styles pw ph hskE with ⟨hC, hD⟩ | ⟨f1, f2, hC, hD, hM2⟩
          · simp only [hC, hD]
            exact Or.inl ⟨by trivial, by trivial⟩
          · simp only [hC, hD]
            exact Or.inr ⟨f1, f2, rfl, rfl, LayMatch_trans hM hM2⟩
    · intro d1 d2 cs styles pw ph curx hsk
      cases cs with
      | nil => exact Or.inr ⟨d1, d2, curx, rfl, rfl, LayMatch_refl d1 d2⟩
      | cons c cs =>
        simp only [layout_flex_children]
        rcases ih.1 d1 d2 c styles pw ph hsk with ⟨hA, hB⟩ | ⟨e1, e2, hA, hB, hex, hM⟩
        · simp only [hA, hB]
          exact Or.inl ⟨by trivial, by trivial⟩
        · simp only [hA, hB]
          obtain ⟨l, hl1, hl2⟩ := hex
          obtain ⟨cn1, hcn1, hcl1⟩ := layAt_some_inv hl1
          obtain ⟨cn2, hcn2, hcl2⟩ := layAt_some_inv hl2
          simp only [hcn1, hcn2, hcl1, hcl2]
          have hskE : SkelEq e1 e2 :=
            SkelEq_trans (SkelEq_symm (SkelEq_of_LayPres ((layPres_layout fuel).1 d1 c styles pw ph e1 hA)))
              (SkelEq_trans hsk (SkelEq_of_LayPres ((layPres_layout fuel).1 d2 c styles pw ph e2 hB)))
          have hm1 : LayMatch e1 e2
              { e1 with nodes := e1.nodes.set c { cn1 with layout := some { l with x := curx } } }
              { e2 with nodes := e2.nodes.set c { cn2 with layout := some { l with x := curx } } } :=
            LayMatch_set_both c cn1 cn2 _ hcn1 hcn2
          have hskD : SkelEq
              { e1 with nodes := e1.nodes.set c { cn1 with layout := some { l with x := curx } } }
              { e2 with nodes := e2.nodes.set c { cn2 with layout := some { l with x := curx } } } :=
            SkelEq_trans (SkelEq_symm (SkelEq_of_LayPres (LayPres_set_layout e1 c cn1 _ hcn1)))
              (SkelEq_trans hskE (SkelEq_of_LayPres (LayPres_set_layout e2 c cn2 _ hcn2)))
          rcases ih.2.2 _ _ cs styles pw ph (curx + l.width) hskD with ⟨hC, hD⟩ | ⟨f1, f2, xf, hC, hD, hM2⟩
          · simp only [hC, hD]
            exact Or.inl ⟨by trivial, by trivial⟩
          · simp only [hC, hD]
            exact Or.inr ⟨f1, f2, xf, rfl, rfl,
              LayMatch_trans hM (LayMatch_trans hm1 hM2)⟩

theorem mapStrip_shape (o : Option Node) :
    (o.map stripData).map NodeShape = o.map NodeShape := by
  cases o <;> rfl

theorem mapStrip_bind_layout (o : Option Node) :
    (o.map stripData).bind Node.layout = o.bind Node.layout := by
  cases o <;> rfl

theorem stripData_congr_of {n1 n2 m1 m2 : Node}
    (h1 : stripLayout n1 = stripLayout m1)
    (h2 : stripLayout n2 = stripLayout m2)
    (hD : stripData m1 = stripData m2)
    (hl : n1.layout = n2.layout) :
    stripData n1 = stripData n2 := by
  cases n1
  cases n2
  cases m1
  cases m2
  simp only [stripLayout, stripData, Node.mk.injEq, and_true, true_and] at h1 h2 hD hl ⊢
  refine ⟨h1.1.trans (hD.1.trans h2.1.symm), h1.2.1.trans (hD.2.1.trans h2.2.1.symm),
    h1.2.2.1.trans (hD.2.2.1.trans h2.2.2.1.symm), ?_, ?_, hl⟩
  · exact h1.2.2.2.2.1.trans (hD.2.2.2.1.trans h2.2.2.2.2.1.symm)
  · exact h1.2.2.2.2.2.trans (hD.2.2.2.2.1.trans h2.2.2.2.2.2.symm)

/-- Claim C10: the geometry written by `calculate_layout` depends only on
the tree shape (node types, child lists, root) and the pre-existing
layout annotations — two documents that differ only in their data
payloads (tag names, attributes, text; stylesheets are not part of the
document and the pass seeds every node with the default style) fail
identically or produce identical `Layout` records on every node, and
still differ only in their data payloads. -/
theorem C10_layout_shape_only (fuel : Nat) (d1 d2 : Document) (vw vh : ℚ)
    (hroot : d1.root = d2.root)
    (hlen : d1.nodes.length = d2.nodes.length)
    (hdata : ∀ j : Nat, (d1.nodes[j]?).map stripData = (d2.nodes[j]?).map stripData) :
    (calculate_layout fuel d1 vw vh = none ∧ calculate_layout fuel d2 vw vh = none) ∨
    (∃ e1 e2, calculate_layout fuel d1 vw vh = some e1 ∧
      calculate_layout fuel d2 vw vh = some e2 ∧
      (∀ j : Nat, layAt e1 j = layAt e2 j) ∧
      e1.root = e2.root ∧ e1.nodes.length = e2.nodes.length ∧
      (∀ j : Nat, (e1.nodes[j]?).map stripData = (e2.nodes[j]?).map stripData)) := by
  have hsk : SkelEq d1 d2 := by
    refine ⟨hlen, fun j => ?_⟩
    have := congrArg (Option.map NodeShape) (hdata j)
    rw [mapStrip_shape, mapStrip_shape] at this
    exact this
  have hlay0 : ∀ j : Nat, layAt d1 j = layAt d2 j := by
    intro j
    have := congrArg (fun o => o.bind Node.layout) (hdata j)
    simp only [mapStrip_bind_layout] at this
    exact this
  rw [calculate_layout, calculate_layout, ← hroot, ← hlen]
  by_cases h0 : d1.nodes.length = 0
  · simp only [h0, if_true]
    exact Or.inr ⟨d1, d2, rfl, rfl, hlay0, hroot, hlen, hdata⟩
  · simp only [h0, if_false]
    rcases (congr_layout fuel).1 d1 d2 d1.root
        (List.replicate d1.nodes.length ComputedStyle.default) vw vh hsk with
      ⟨hA, hB⟩ | ⟨e1, e2, hA, hB, _, hM⟩
    · exact Or.inl ⟨hA, hB⟩
    · have hp1 : LayPres d1 e1 := (layPres_layout fuel).1 d1 d1.root _ vw vh e1 hA
      have hp2 : LayPres d2 e2 := (layPres_layout fuel).1 d2 d1.root _ vw vh e2 hB
      have hlayE : ∀ j : Nat, layAt e1 j = layAt e2 j := by
        intro j
        rcases hM j with ⟨hq1, hq2⟩ | hq
        · rw [hq1, hq2, hlay0 j]
        · exact hq
      refine Or.inr ⟨e1, e2, hA, hB, hlayE, ?_, ?_, ?_⟩
      · rw [hp1.1, hp2.1, hroot]
      · rw [hp1.2.1, hp2.2.1, hlen]
      · intro j
        have hs1 := hp1.2.2 j
        have hs2 := hp2.2.2 j
        have hD := hdata j
        rcases he1 : e1.nodes[j]? with _ | n1
        · have hj1 : d1.nodes.length ≤ j := by
            rw [← hp1.2.1]
            exact List.getElem?_eq_none_iff.mp he1
          have hd2none : d2.nodes[j]? = none := List.getElem?_eq_none (hlen ▸ hj1)
          have he2 : e2.nodes[j]? = none := by
            apply List.getElem?_eq_none
            rw [hp2.2.1]
            exact hlen ▸ hj1
          rw [he2]
        · rcases he2 : e2.nodes[j]? with _ | n2
          · have hj2 : e2.nodes.length ≤ j := List.getElem?_eq_none_iff.mp he2
            have : j < e2.nodes.length := by
              rw [hp2.2.1, ← hlen, ← hp1.2.1]
              exact (List.getElem?_eq_some.mp he1).1
            exact absurd this (Nat.not_lt.mpr hj2)
          · rcases hm1 : d1.nodes[j]? with _ | q1
            · simp [hm1, he1] at hs1
            · rcases hm2 : d2.nodes[j]? with _ | q2
              · simp [hm2, he2] at hs2
              · simp only [he1, hm1, Option.map_some, Option.some.injEq] at hs1
                simp only [he2, hm2, Option.map_some, Option.some.injEq] at hs2
                have hDq : stripData q1 = stripData q2 := by
                  have hq := hdata j
                  rw [hm1, hm2] at hq
                  exact Option.some.inj hq
                have hlayn : n1.layout = n2.layout := by
                  have hx := hlayE j
                  rw [layAt, layAt, he1, he2] at hx
                  exact hx
                exact congrArg some
                  (stripData_congr_of (Option.some.inj hs1) (Option.some.inj hs2) hDq hlayn)

/-- A two-node document: like `docH1` but the element is a `<p>` — same
tree shape, different data payload. -/
def docP : Document :=
  (((Document.new.create_element ("p".toList)).1).append_child 0 1).getD
    (Document.new.create_element ("p".toList)).1

/-- Witness for C10: `docH1` and `docP` agree on everything but the tag
name, so `calculate_layout` treats them identically. -/
theorem C10_layout_shape_only_witness :
    (calculate_layout 3 docH1 1024 768 = none ∧ calculate_layout 3 docP 1024 768 = none) ∨
    (∃ e1 e2, calculate_layout 3 docH1 1024 768 = some e1 ∧
      calculate_layout 3 docP 1024 768 = some e2 ∧
      (∀ j : Nat, layAt e1 j = layAt e2 j) ∧
      e1.root = e2.root ∧ e1.nodes.length = e2.nodes.length ∧
      (∀ j : Nat, (e1.nodes[j]?).map stripData = (e2.nodes[j]?).map stripData)) :=
  C10_layout_shape_only 3 docH1 docP 1024 768 rfl rfl (fun j => by
    rcases j with _ | _ | j <;> rfl)

/-! ### C6: flex children are positioned at the running sum of the
preceding widths -/

/-- Sum of the laid-out border-box widths of the given node indices. -/
def widthsSum (d : Document) (cs : List Nat) : ℚ :=
  (cs.map (fun c => ((layAt d c).map LayoutRec.width).getD 0)).sum

theorem not_mem_touchList (d : Document) (j : Nat) (cs : List Nat)
    (h : ∀ f k (hk : k < cs.length), j ∉ touch f d (cs.get ⟨k, hk⟩)) :
    ∀ f, j ∉ touchList f d cs := by
  induction cs with
  | nil =>
    intro f
    cases f with
    | zero => simp [touchList]
    | succ f2 => simp [touchList]
  | cons c cs ihc =>
    intro f
    cases f with
    | zero => simp [touchList]
    | succ f2 =>
      rw [touchList]
      intro hmem
      rcases List.mem_append.mp hmem with hm | hm
      · exact h f2 0 (by simp) hm
      · exact ihc (fun f' k hk => h f' (k + 1) (Nat.succ_lt_succ hk)) f2 hm

/-- The flex loop of `layout_flex_children`, related child by child to a
stand-alone layout run on the base document `doc`: provided the children
have pairwise disjoint `touch` sets over `doc`, every child keeps the
layout of its own run except that x is overwritten with the running width
sum. -/
theorem flex_fold_spec (doc : Document) (styles : List ComputedStyle) (pw ph : ℚ)
    (cs : List Nat) :
    ∀ fuel d0 curx doc' xf,
      layout_flex_children fuel d0 cs styles pw ph curx = some (doc', xf) →
      SkelEq doc d0 →
      (∀ f k (hk : k < cs.length) k2 (hk2 : k2 < cs.length), k ≠ k2 →
        cs.get ⟨k, hk⟩ ∉ touch f doc (cs.get ⟨k2, hk2⟩)) →
      ∀ i (hi : i < cs.length),
        ∃ f di l,
          calculate_layout_recursive f doc (cs.get ⟨i, hi⟩) styles pw ph = some di ∧
          layAt di (cs.get ⟨i, hi⟩) = some l ∧
          layAt doc' (cs.get ⟨i, hi⟩) =
            some { l with x := curx + widthsSum doc' (cs.take i) } := by
  induction cs with
  | nil =>
    intro fuel d0 curx doc' xf _ _ _ i hi
    exact absurd hi (by simp)
  | cons c cs ihc =>
    intro fuel d0 curx doc' xf hrun hsk hsep i hi
    cases fuel with
    | zero => cases hrun
    | succ f =>
      rw [layout_flex_children] at hrun
      rcases hc : calculate_layout_recursive f d0 c styles pw ph with _ | d
      · simp only [hc] at hrun
        cases hrun
      · simp only [hc] at hrun
        rcases (congr_layout f).1 d0 doc c styles pw ph (SkelEq_symm hsk) with
          ⟨hA, _⟩ | ⟨e1, e2, hA, hB, hex, _⟩
        · rw [hc] at hA
          cases hA
        · rw [hc] at hA
          obtain rfl : d = e1 := Option.some.inj hA
          obtain ⟨l, hld, hlspec⟩ := hex
          obtain ⟨cn, hcn, hcl⟩ := layAt_some_inv hld
          simp only [hcn, hcl] at hrun
          have hsk_d : SkelEq doc d :=
            SkelEq_trans hsk (SkelEq_of_LayPres ((layPres_layout f).1 d0 c styles pw ph d hc))
          have hsk_d2 : SkelEq doc { d with nodes := d.nodes.set c { cn with layout := some { l with x := curx } } } :=
            SkelEq_trans hsk_d (SkelEq_of_LayPres (LayPres_set_layout d c cn _ hcn))
          have hlay_d2 : layAt { d with nodes := d.nodes.set c { cn with layout := some { l with x := curx } } } c = some { l with x := curx } :=
            layAt_set_eq d c cn _ hcn
          have hnotc : c ∉ touchList f { d with nodes := d.nodes.set c { cn with layout := some { l with x := curx } } } cs := by
            rw [← (touch_congr f).2 doc _ cs hsk_d2]
            exact not_mem_touchList doc c cs
              (fun f' k hk => hsep f' 0 (by simp) (k + 1) (Nat.succ_lt_succ hk)
                (by omega)) f
          have hfc : doc'.nodes[c]? = ({ d with nodes := d.nodes.set c { cn with layout := some { l with x := curx } } } : Document).nodes[c]? :=
            (frame_layout f).2.2 _ cs styles pw ph (curx + l.width) doc' xf hrun c hnotc
          have hfinal_c : layAt doc' c = some { l with x := curx } := by
            rw [layAt, hfc]
            exact hlay_d2
          rcases i with _ | i
          · have hg : (c :: cs).get ⟨0, hi⟩ = c := rfl
            rw [hg]
            refine ⟨f, e2, l, hB, hlspec, ?_⟩
            rw [hfinal_c]
            rw [show curx + widthsSum doc' (List.take 0 (c :: cs)) = curx from by
              simp [widthsSum]]
          · have hi' : i < cs.length := Nat.lt_of_succ_lt_succ hi
            have hg : (c :: cs).get ⟨i + 1, hi⟩ = cs.get ⟨i, hi'⟩ := rfl
            rw [hg]
            obtain ⟨f', di, li, hrunspec, hlayspec, hx⟩ :=
              ihc f _ (curx + l.width) doc' xf hrun hsk_d2
                (fun f' k hk k2 hk2 hne =>
                  hsep f' (k + 1) (Nat.succ_lt_succ hk) (k2 + 1) (Nat.succ_lt_succ hk2)
                    (fun he => hne (Nat.succ.inj he)))
                i hi'
            refine ⟨f', di, li, hrunspec, hlayspec, ?_⟩
            rw [hx]
            have hw : widthsSum doc' ((c :: cs).take (i + 1)) =
                l.width + widthsSum doc' (cs.take i) := by
              simp [widthsSum, hfinal_c]
            rw [hw, ← add_assoc]

/-- Claim C6: for a flex container whose children have pairwise disjoint
subtrees (the document-tree invariant), after the layout step each child
carries the layout of its own stand-alone run against the container's
content box, with its x position overwritten by the sum of the laid-out
widths of all preceding children (so the first child sits at x = 0). -/
theorem C6_flex_positions (fuel : Nat) (doc : Document) (idx : Nat)
    (styles : List ComputedStyle) (pw ph : ℚ) (doc' : Document)
    (node : Node) (style : ComputedStyle)
    (hn : doc.nodes[idx]? = some node)
    (hst : styles[idx]? = some style)
    (hflex : style.display = Display.Flex)
    (hrun : calculate_layout_recursive (Nat.succ fuel) doc idx styles pw ph = some doc')
    (hsep : ∀ f k (hk : k < node.children.length) k2 (hk2 : k2 < node.children.length),
      k ≠ k2 → node.children.get ⟨k, hk⟩ ∉ touch f doc (node.children.get ⟨k2, hk2⟩)) :
    ∀ i (hi : i < node.children.length),
      ∃ f di l,
        calculate_layout_recursive f doc (node.children.get ⟨i, hi⟩) styles
          (computeLayout style node pw ph).content_width
          (computeLayout style node pw ph).content_height = some di ∧
        layAt di (node.children.get ⟨i, hi⟩) = some l ∧
        layAt doc' (node.children.get ⟨i, hi⟩) =
          some { l with x := widthsSum doc' (node.children.take i) } := by
  rw [calculate_layout_recursive] at hrun
  simp only [hn, hst] at hrun
  rw [if_pos hflex] at hrun
  rcases hfl : layout_flex_children fuel { doc with nodes := doc.nodes.set idx { node with layout := some (computeLayout style node pw ph) } } node.children styles (computeLayout style node pw ph).content_width (computeLayout style node pw ph).content_height 0 with _ | pr
  · rw [hfl] at hrun
    cases hrun
  · rw [hfl] at hrun
    obtain rfl : pr.1 = doc' := Option.some.inj hrun
    intro i hi
    obtain ⟨f, di, l, h1, h2, h3⟩ :=
      flex_fold_spec doc styles
        (computeLayout style node pw ph).content_width
        (computeLayout style node pw ph).content_height
        node.children fuel _ 0 pr.1 pr.2 hfl
        (SkelEq_of_LayPres (LayPres_set_layout doc idx node _ hn)) hsep i hi
    refine ⟨f, di, l, h1, h2, ?_⟩
    rw [h3, zero_add]

/-- A document with a flex container at index 1 holding the two leaf
children 2 and 3. -/
def docFlex : Document :=
  let r1 := Document.new.create_element ("div".toList)
  let r2 := r1.1.create_element ("div".toList)
  let r3 := r2.1.create_element ("div".toList)
  let d := r3.1
  let d := (d.append_child 0 1).getD d
  let d := (d.append_child 1 2).getD d
  (d.append_child 1 3).getD d

/-- Styles for `docFlex`: the container is Flex, both children 100×100. -/
def stylesFlex : List ComputedStyle :=
  [ComputedStyle.default,
   { ComputedStyle.default with display := Display.Flex },
   { ComputedStyle.default with width := some (CSSValue.Pixels 100), height := some (CSSValue.Pixels 100) },
   { ComputedStyle.default with width := some (CSSValue.Pixels 100), height := some (CSSValue.Pixels 100) }]

/-- The 100×100 layout the flex children of `docFlex` receive, at a given
x position. -/
def flexChildLayout (xv : ℚ) : LayoutRec :=
  { x := xv, y := 0, width := 100, height := 100, content_width := 100, content_height := 100,
    padding_top := 0, padding_right := 0, padding_bottom := 0, padding_left := 0,
    margin_top := 0, margin_right := 0, margin_bottom := 0, margin_left := 0,
    border_width := 0, font_size := 16, display := Display.Block }

/-- The flex container node of `docFlex`. -/
def containerNode : Node :=
  { node_type := NodeType.Element, parent := some 0, children := [2, 3],
    data := some (NodeData.Element { tag_name := "div".toList, attributes := [] }),
    shadow_root := none, event_listeners := [], layout := none }

/-- The flex style of the container in `stylesFlex`. -/
def flexStyle : ComputedStyle :=
  { ComputedStyle.default with display := Display.Flex }

/-- The result of `calculate_layout_recursive 4 docFlex 1 stylesFlex 1024 768`. -/
def docFlexRes : Document :=
  { nodes := [
      { node_type := NodeType.Document, parent := none, children := [1], data := none,
        shadow_root := none, event_listeners := [], layout := none },
      { node_type := NodeType.Element, parent := some 0, children := [2, 3],
        data := some (NodeData.Element { tag_name := "div".toList, attributes := [] }),
        shadow_root := none, event_listeners := [],
        layout := some { flexChildLayout 0 with display := Display.Flex } },
      { node_type := NodeType.Element, parent := some 1, children := [],
        data := some (NodeData.Element { tag_name := "div".toList, attributes := [] }),
        shadow_root := none, event_listeners := [], layout := some (flexChildLayout 0) },
      { node_type := NodeType.Element, parent := some 1, children := [],
        data := some (NodeData.Element { tag_name := "div".toList, attributes := [] }),
        shadow_root := none, event_listeners := [], layout := some (flexChildLayout 100) }],
    root := 0 }

/-- `touch` of a childless node holds nothing but the node itself. -/
theorem touch_leaf (f : Nat) (d : Document) (c : Nat) (n : Node)
    (hn : d.nodes[c]? = some n) (hch : n.children = []) :
    ∀ x, x ∈ touch f d c → x = c := by
  intro x hx
  cases f with
  | zero => simp [touch] at hx
  | succ f2 =>
    rw [touch] at hx
    simp only [hn] at hx
    rw [hch] at hx
    simp [touchList] at hx
    exact hx

/-- Witness for C6: in `docFlex` the second flex child (index 3) ends at
x = sum of the first child's width, and its other fields are those of its
stand-alone layout run. -/
theorem C6_flex_positions_witness :
    ∃ f di l,
      calculate_layout_recursive f docFlex (containerNode.children.get ⟨1, by decide⟩)
        stylesFlex
        (computeLayout flexStyle containerNode 1024 768).content_width
        (computeLayout flexStyle containerNode 1024 768).content_height = some di ∧
      layAt di (containerNode.children.get ⟨1, by decide⟩) = some l ∧
      layAt docFlexRes (containerNode.children.get ⟨1, by decide⟩) =
        some { l with x := widthsSum docFlexRes (containerNode.children.take 1) } := by
  have happ := C6_flex_positions 3 docFlex 1 stylesFlex 1024 768 docFlexRes
    containerNode flexStyle (by decide) rfl rfl
    (by
      norm_num [calculate_layout_recursive, layout_children, layout_flex_children,
        computeLayout, calculate_dimensions, CSSValue.as_pixels, ComputedStyle.default,
        docFlex, stylesFlex, docFlexRes, flexChildLayout, flexStyle, Document.new,
        Document.create_element, Document.append_child])
    (by
      intro f k hk k2 hk2 hne
      have hlen2 : (containerNode.children).length = 2 := rfl
      rcases k with _ | _ | k
      · rcases k2 with _ | _ | k2
        · exact absurd rfl hne
        · show (2 : Nat) ∉ touch f docFlex 3
          intro hmem
          exact absurd (touch_leaf f docFlex 3 _ rfl rfl 2 hmem) (by decide)
        · omega
      · rcases k2 with _ | _ | k2
        · show (3 : Nat) ∉ touch f docFlex 2
          intro hmem
          exact absurd (touch_leaf f docFlex 2 _ rfl rfl 3 hmem) (by decide)
        · exact absurd rfl hne
        · omega
      · omega)
    1 (by decide)
  exact happ

end Cortex
